import Mathlib

/-!
Verification of the tiled_render_experiment repository's geometry core:
bounding boxes (src/bbox.rs), shapes and the rectilinear path offsetter
(src/shapes.rs, src/path_to_poly.rs), the tile grid builder and shape
binner (src/main.rs), and the occupancy reporter (src/utils.rs).

Machine integers (i32/i64/isize) are embedded as Int; the only cast whose
wrap-around is observable in the modelled code, `as u32` in the binner,
is modelled explicitly by reduction modulo 2^32.  Code that panics
(assert_eq!, unwrap, index out of bounds on a missing key) is modelled
with Option, the panic becoming `none`.
-/

namespace TiledRender

/-- `Point` from src/shapes.rs: a pair of i32 coordinates (isize/i64 in the
variants used by main.rs; all are embedded as Int). -/
structure Pt where
  x : Int
  y : Int
deriving DecidableEq

/-- `Point::shift` from src/shapes.rs: the translated copy
`Point { x: p.x + self.x, y: p.y + self.y }`. -/
def Pt.shift (self p : Pt) : Pt :=
  ⟨p.x + self.x, p.y + self.y⟩

/-- i32::MAX, the sentinel used by `UnvalidatedBoundingBox::invalid`. -/
def i32Max : Int := 2147483647

/-- i32::MIN, the sentinel used by `UnvalidatedBoundingBox::invalid`. -/
def i32Min : Int := -2147483648

/-- `UnvalidatedBoundingBox` from src/bbox.rs. -/
structure UnvalidatedBoundingBox where
  min : Pt
  max : Pt
deriving DecidableEq

/-- `UnvalidatedBoundingBox::invalid` from src/bbox.rs: min at (i32::MAX,
i32::MAX) and max at (i32::MIN, i32::MIN). -/
def UnvalidatedBoundingBox.invalid : UnvalidatedBoundingBox :=
  ⟨⟨i32Max, i32Max⟩, ⟨i32Min, i32Min⟩⟩

/-- `BoundingBox` from src/bbox.rs. -/
structure BoundingBox where
  min : Pt
  max : Pt
deriving DecidableEq

/-- `BoundingBox::new` from src/bbox.rs.  The source asserts
`unvalidated.min.x != unvalidated.max.x`, swaps the x coordinates if
`max.x < min.x`, then does the same for y; the two `assert_ne!` panics
are modelled as `none`. -/
def BoundingBox.new (u : UnvalidatedBoundingBox) : Option BoundingBox :=
  if u.min.x = u.max.x then none
  else
    let xs : Int × Int :=
      if u.max.x < u.min.x then (u.max.x, u.min.x) else (u.min.x, u.max.x)
    if u.min.y = u.max.y then none
    else
      let ys : Int × Int :=
        if u.max.y < u.min.y then (u.max.y, u.min.y) else (u.min.y, u.max.y)
      some ⟨⟨xs.1, ys.1⟩, ⟨xs.2, ys.2⟩⟩

/-- `BoundingBox::union` from src/bbox.rs: componentwise min of the mins
and max of the maxes (the source mutates `self`; modelled as returning
the new value). -/
def BoundingBox.union (a b : BoundingBox) : BoundingBox :=
  ⟨⟨Min.min a.min.x b.min.x, Min.min a.min.y b.min.y⟩,
   ⟨Max.max a.max.x b.max.x, Max.max a.max.y b.max.y⟩⟩

/-- `BoundingBox::shift` from src/bbox.rs. -/
def BoundingBox.shift (b : BoundingBox) (p : Pt) : BoundingBox :=
  ⟨b.min.shift p, b.max.shift p⟩

/-- `RectMove` from the `path_to_poly` module of src/shapes.rs (and
src/path_to_poly.rs): the direction of one rectilinear segment. -/
inductive RectMove where
  | left
  | right
  | up
  | down
deriving DecidableEq

/-- `calculate_move` from src/shapes.rs / src/path_to_poly.rs: classifies
the segment `p0 → p1`; the panics on identical points and on
non-rectilinear (diagonal) segments are modelled as `none`. -/
def calculateMove (p0 p1 : Pt) : Option RectMove :=
  if p0.x = p1.x then
    if p0.y = p1.y then none
    else if p0.y < p1.y then some .up
    else some .down
  else if p0.y = p1.y then
    if p0.x < p1.x then some .right
    else some .left
  else none

/-- The pair of point chains (`forward_poly_points`, `backward_poly_points`)
threaded through the offsetter helpers. -/
abbrev Chains := List Pt × List Pt

/-- `shift_pure_right` from src/shapes.rs / src/path_to_poly.rs. -/
def shiftPureRight (c : Chains) (p0 : Pt) (h : Int) : Chains :=
  (c.1 ++ [⟨p0.x, p0.y - h⟩], c.2 ++ [⟨p0.x, p0.y + h⟩])

/-- `shift_pure_left` from src/shapes.rs / src/path_to_poly.rs. -/
def shiftPureLeft (c : Chains) (p0 : Pt) (h : Int) : Chains :=
  (c.1 ++ [⟨p0.x, p0.y + h⟩], c.2 ++ [⟨p0.x, p0.y - h⟩])

/-- `shift_pure_up` from src/shapes.rs / src/path_to_poly.rs. -/
def shiftPureUp (c : Chains) (p0 : Pt) (h : Int) : Chains :=
  (c.1 ++ [⟨p0.x + h, p0.y⟩], c.2 ++ [⟨p0.x - h, p0.y⟩])

/-- `shift_pure_down` from src/shapes.rs / src/path_to_poly.rs. -/
def shiftPureDown (c : Chains) (p0 : Pt) (h : Int) : Chains :=
  (c.1 ++ [⟨p0.x - h, p0.y⟩], c.2 ++ [⟨p0.x + h, p0.y⟩])

/-- `shift_right_up` from src/shapes.rs / src/path_to_poly.rs. -/
def shiftRightUp (c : Chains) (p0 : Pt) (h : Int) : Chains :=
  (c.1 ++ [⟨p0.x + h, p0.y - h⟩], c.2 ++ [⟨p0.x - h, p0.y + h⟩])

/-- `shift_left_down` from src/shapes.rs / src/path_to_poly.rs: calls
`shift_right_up` with the two chains swapped. -/
def shiftLeftDown (c : Chains) (p0 : Pt) (h : Int) : Chains :=
  let r := shiftRightUp (c.2, c.1) p0 h
  (r.2, r.1)

/-- `shift_right_down` from src/shapes.rs / src/path_to_poly.rs. -/
def shiftRightDown (c : Chains) (p0 : Pt) (h : Int) : Chains :=
  (c.1 ++ [⟨p0.x - h, p0.y - h⟩], c.2 ++ [⟨p0.x + h, p0.y + h⟩])

/-- `shift_left_up` from src/shapes.rs / src/path_to_poly.rs: calls
`shift_right_down` with the two chains swapped. -/
def shiftLeftUp (c : Chains) (p0 : Pt) (h : Int) : Chains :=
  let r := shiftRightDown (c.2, c.1) p0 h
  (r.2, r.1)

/-- The four-way `match` on a single direction used at the first and last
vertex of both offsetters (`shift_pure_*` keyed by the move). -/
def applyPure (m : RectMove) (c : Chains) (p0 : Pt) (h : Int) : Chains :=
  match m with
  | .right => shiftPureRight c p0 h
  | .left => shiftPureLeft c p0 h
  | .up => shiftPureUp c p0 h
  | .down => shiftPureDown c p0 h

/-- The eight-entry `match (last_move, next_move)` table at interior
vertices of both offsetters; opposite directions panic
("Received opposing last/next moves!"), modelled as `none`. -/
def applyTurn (lastM nextM : RectMove) (c : Chains) (p0 : Pt) (h : Int) :
    Option Chains :=
  match lastM, nextM with
  | .right, .right => some (shiftPureRight c p0 h)
  | .left, .left => some (shiftPureLeft c p0 h)
  | .up, .up => some (shiftPureUp c p0 h)
  | .down, .down => some (shiftPureDown c p0 h)
  | .right, .down => some (shiftRightDown c p0 h)
  | .down, .right => some (shiftRightDown c p0 h)
  | .right, .up => some (shiftRightUp c p0 h)
  | .up, .right => some (shiftRightUp c p0 h)
  | .left, .up => some (shiftLeftUp c p0 h)
  | .up, .left => some (shiftLeftUp c p0 h)
  | .left, .down => some (shiftLeftDown c p0 h)
  | .down, .left => some (shiftLeftDown c p0 h)
  | _, _ => none

/-- One iteration of the interior-vertex loop of `Path::as_poly`
(src/shapes.rs): classify the next segment, apply the turn table at the
current interior point `pts[ix]`, and carry the move along. -/
def asPolyStep (pts : List Pt) (half : Int) (acc : Chains × RectMove)
    (ix : Nat) : Option (Chains × RectMove) :=
  (calculateMove (pts.getD ix ⟨0, 0⟩) (pts.getD (ix + 1) ⟨0, 0⟩)).bind
    fun nextM =>
      (applyTurn acc.2 nextM acc.1 (pts.getD ix ⟨0, 0⟩) half).map
        fun c => (c, nextM)

/-- One iteration of the interior-vertex loop of `make_path_into_polygon`
(src/path_to_poly.rs): identical to `asPolyStep` except that — as written
in the source — the helper is applied to `path.points[0]` instead of the
current interior point. -/
def makePathStep (pts : List Pt) (half : Int) (acc : Chains × RectMove)
    (ix : Nat) : Option (Chains × RectMove) :=
  (calculateMove (pts.getD ix ⟨0, 0⟩) (pts.getD (ix + 1) ⟨0, 0⟩)).bind
    fun nextM =>
      (applyTurn acc.2 nextM acc.1 (pts.getD 0 ⟨0, 0⟩) half).map
        fun c => (c, nextM)

/-- `Path::as_poly` from src/shapes.rs.  Panics (odd width, fewer than two
points, identical / diagonal consecutive points on the general branch,
opposing moves) are modelled as `none`.  A path with exactly two points
takes the special-case branch that returns a four-point rectangle without
any validation of the segment. -/
def asPoly (pts : List Pt) (width : Nat) : Option (List Pt) :=
  if width % 2 ≠ 0 then none
  else
    let half : Int := (width / 2 : Nat)
    if pts.length = 2 then
      let q0 := pts.getD 0 ⟨0, 0⟩
      let q1 := pts.getD 1 ⟨0, 0⟩
      if q0.x = q1.x then
        some [⟨q0.x + half, q0.y⟩, ⟨q1.x + half, q1.y⟩,
              ⟨q1.x - half, q1.y⟩, ⟨q0.x - half, q0.y⟩]
      else
        some [⟨q0.x, q0.y - half⟩, ⟨q1.x, q1.y - half⟩,
              ⟨q1.x, q1.y + half⟩, ⟨q0.x, q0.y + half⟩]
    else if pts.length ≤ 1 then none
    else
      let n := pts.length
      (calculateMove (pts.getD 0 ⟨0, 0⟩) (pts.getD 1 ⟨0, 0⟩)).bind fun startM =>
      ((List.range' 1 (n - 2)).foldlM (asPolyStep pts half)
        (applyPure startM ([], []) (pts.getD 0 ⟨0, 0⟩) half, startM)).bind
        fun st =>
      (calculateMove (pts.getD (n - 2) ⟨0, 0⟩) (pts.getD (n - 1) ⟨0, 0⟩)).map
        fun endM =>
          let c2 := applyPure endM st.1 (pts.getD (n - 1) ⟨0, 0⟩) half
          c2.1 ++ c2.2.reverse

/-- `make_path_into_polygon` from src/path_to_poly.rs.  Same skeleton as
`Path::as_poly` but with no two-point special case, and with the
interior-vertex slip recorded in `makePathStep`.  Panics are modelled as
`none`; the final `map` to i64 pairs is the identity in this embedding. -/
def makePathIntoPolygon (pts : List Pt) (width : Nat) : Option (List Pt) :=
  if width % 2 ≠ 0 then none
  else
    let half : Int := (width / 2 : Nat)
    if pts.length ≤ 1 then none
    else
      let n := pts.length
      (calculateMove (pts.getD 0 ⟨0, 0⟩) (pts.getD 1 ⟨0, 0⟩)).bind fun startM =>
      ((List.range' 1 (n - 2)).foldlM (makePathStep pts half)
        (applyPure startM ([], []) (pts.getD 0 ⟨0, 0⟩) half, startM)).bind
        fun st =>
      (calculateMove (pts.getD (n - 2) ⟨0, 0⟩) (pts.getD (n - 1) ⟨0, 0⟩)).map
        fun endM =>
          let c2 := applyPure endM st.1 (pts.getD (n - 1) ⟨0, 0⟩) half
          c2.1 ++ c2.2.reverse

/-- `Shape` from src/shapes.rs: Rect, Poly or Path with a layer tag. -/
inductive Shape where
  | rect (p0 p1 : Pt) (layer : Nat)
  | poly (points : List Pt) (layer : Nat)
  | path (points : List Pt) (width : Nat) (layer : Nat)
deriving DecidableEq

/-- The running min/max fold step shared by every arm of
`CalculateBoundingBox for Shape` in src/shapes.rs. -/
def foldCorner (u : UnvalidatedBoundingBox) (p : Pt) : UnvalidatedBoundingBox :=
  ⟨⟨Min.min p.x u.min.x, Min.min p.y u.min.y⟩,
   ⟨Max.max p.x u.max.x, Max.max p.y u.max.y⟩⟩

/-- `Shape::bbox` (`CalculateBoundingBox for Shape`) from src/shapes.rs:
fold the shape's corners / vertices / offset-polygon vertices into
`UnvalidatedBoundingBox::invalid()` and validate with
`BoundingBox::new`; a panic inside `as_poly` or `new` is `none`. -/
def shapeBBox : Shape → Option BoundingBox
  | .rect p0 p1 _ =>
      BoundingBox.new (foldCorner (foldCorner .invalid p0) p1)
  | .poly points _ =>
      BoundingBox.new (points.foldl foldCorner .invalid)
  | .path points width _ =>
      (asPoly points width).bind fun pts =>
        BoundingBox.new (pts.foldl foldCorner .invalid)

/-! ### The tile grid and binner of src/main.rs

main.rs works on `layout21::raw` primitives and `geo` rectangles /
polygons.  Those two crates are external dependencies, so their small
pieces used here (bounding boxes of raw shapes, `geo::Rect::new`, the
`Intersects` tests) are modelled from their documented behaviour; all of
the repository's own code (`load_lib_system`'s grid construction,
`import_cell_shapes`, `stats`) is translated directly. -/

/-- isize::MAX, the sentinel of `layout21`'s `BoundBox::empty`. -/
def i64Max : Int := 9223372036854775807

/-- isize::MIN, the sentinel of `layout21`'s `BoundBox::empty`. -/
def i64Min : Int := -9223372036854775808

/-- `layout21::raw::Shape` as used by `import_cell_shapes` (the element's
layer and metadata are not read by the modelled code). -/
inductive RawShape where
  | rect (p0 p1 : Pt)
  | polygon (points : List Pt)
  | path (points : List Pt) (width : Nat)
deriving DecidableEq

/-- Modelled from the layout21 dependency: `BoundBox` is an unvalidated
corner pair, `empty()` being (MAX,MAX)/(MIN,MIN). -/
structure BoundBox where
  p0 : Pt
  p1 : Pt
deriving DecidableEq

/-- Modelled from the layout21 dependency: the empty sentinel box. -/
def BoundBox.empty : BoundBox := ⟨⟨i64Max, i64Max⟩, ⟨i64Min, i64Min⟩⟩

/-- Modelled from the layout21 dependency: a box is empty when a max
coordinate lies below the corresponding min coordinate. -/
def BoundBox.isEmpty (b : BoundBox) : Bool :=
  decide (b.p1.x < b.p0.x) || decide (b.p1.y < b.p0.y)

/-- Expand a box to contain one more point (componentwise min/max). -/
def BoundBox.expand (b : BoundBox) (p : Pt) : BoundBox :=
  ⟨⟨Min.min p.x b.p0.x, Min.min p.y b.p0.y⟩,
   ⟨Max.max p.x b.p1.x, Max.max p.y b.p1.y⟩⟩

/-- Modelled from the layout21 dependency: `Shape::union(&self, bbox)`
expands the given box by the shape's constituent points (a rect's two
corners, a polygon's vertices, a path's centerline points). -/
def RawShape.union (e : RawShape) (bb : BoundBox) : BoundBox :=
  match e with
  | .rect p0 p1 => (bb.expand p0).expand p1
  | .polygon pts => pts.foldl BoundBox.expand bb
  | .path pts _ => pts.foldl BoundBox.expand bb

/-- Modelled from the layout21 dependency: `Shape::bbox()` is the union
of the shape with the empty box. -/
def elemBBox (e : RawShape) : BoundBox :=
  e.union .empty

/-- `geo::Rect<i64>` stores a normalized min/max corner pair. -/
structure GeoRect where
  min : Pt
  max : Pt
deriving DecidableEq

/-- Modelled from the geo dependency: `Rect::new` takes two arbitrary
corners and stores componentwise min/max. -/
def mkGeoRect (c1 c2 : Pt) : GeoRect :=
  ⟨⟨Min.min c1.x c2.x, Min.min c1.y c2.y⟩,
   ⟨Max.max c1.x c2.x, Max.max c1.y c2.y⟩⟩

/-- Modelled from the geo dependency: closed rectangle/rectangle
intersection (`Intersects<Rect> for Rect`): boxes that merely share a
boundary point do intersect. -/
def rectIntersects (a b : GeoRect) : Bool :=
  decide (b.min.x ≤ a.max.x) && decide (a.min.x ≤ b.max.x) &&
  decide (b.min.y ≤ a.max.y) && decide (a.min.y ≤ b.max.y)

/-- Closed containment of a point in a `GeoRect`. -/
def ptInRect (r : GeoRect) (p : Pt) : Bool :=
  decide (r.min.x ≤ p.x) && decide (p.x ≤ r.max.x) &&
  decide (r.min.y ≤ p.y) && decide (p.y ≤ r.max.y)

/-- Twice the signed area of the triangle (o, a, b). -/
def cross (o a b : Pt) : Int :=
  (a.x - o.x) * (b.y - o.y) - (a.y - o.y) * (b.x - o.x)

/-- `q` lies on the closed segment from `p` to `r` (exact test). -/
def onSegment (p q r : Pt) : Bool :=
  decide (cross p q r = 0) &&
  decide (Min.min p.x r.x ≤ q.x) && decide (q.x ≤ Max.max p.x r.x) &&
  decide (Min.min p.y r.y ≤ q.y) && decide (q.y ≤ Max.max p.y r.y)

/-- Exact closed-segment intersection test (orientation signs plus the
four collinear touch cases). -/
def segsIntersect (p1 q1 p2 q2 : Pt) : Bool :=
  let o1 := cross p1 q1 p2
  let o2 := cross p1 q1 q2
  let o3 := cross p2 q2 p1
  let o4 := cross p2 q2 q1
  (decide (o1 * o2 < 0) && decide (o3 * o4 < 0)) ||
  (decide (o1 = 0) && onSegment p1 p2 q1) ||
  (decide (o2 = 0) && onSegment p1 q2 q1) ||
  (decide (o3 = 0) && onSegment p2 p1 q2) ||
  (decide (o4 = 0) && onSegment p2 q1 q2)

/-- The four corners of a `GeoRect`, counterclockwise. -/
def rectCorners (r : GeoRect) : List Pt :=
  [r.min, ⟨r.max.x, r.min.y⟩, r.max, ⟨r.min.x, r.max.y⟩]

/-- The four closed edges of a `GeoRect`. -/
def rectEdges (r : GeoRect) : List (Pt × Pt) :=
  [(r.min, ⟨r.max.x, r.min.y⟩), (⟨r.max.x, r.min.y⟩, r.max),
   (r.max, ⟨r.min.x, r.max.y⟩), (⟨r.min.x, r.max.y⟩, r.min)]

/-- The edges of a closed polygon ring (last vertex joined to the first,
as a `geo` LineString exterior is implicitly closed). -/
def polyEdges (pts : List Pt) : List (Pt × Pt) :=
  match pts with
  | [] => []
  | p :: rest => pts.zip (rest ++ [p])

/-- A closed segment touches a closed rectangle. -/
def segIntersectsRect (r : GeoRect) (a b : Pt) : Bool :=
  ptInRect r a || ptInRect r b ||
  (rectEdges r).any fun e => segsIntersect a b e.1 e.2

/-- Exact even-odd point-in-polygon test (boundary counts as inside),
with the ray-crossing comparison done in integers. -/
def pointInPoly (pts : List Pt) (p : Pt) : Bool :=
  (polyEdges pts).any (fun e => onSegment e.1 p e.2) ||
  Nat.bodd ((polyEdges pts).countP fun e =>
    let a := e.1
    let b := e.2
    decide ((a.y > p.y) ≠ (b.y > p.y)) &&
    decide (0 < ((a.x - p.x) * (b.y - a.y) + (b.x - a.x) * (p.y - a.y)) *
      (b.y - a.y)))

/-- Modelled from the geo dependency: closed-region intersection between
a polygon (exterior ring, no holes — `GeoPolygon::new(pts, vec![])`) and
a rectangle: some polygon edge touches the rectangle, or a polygon
vertex lies inside it, or a rectangle corner lies inside the polygon. -/
def polyIntersectsRect (pts : List Pt) (r : GeoRect) : Bool :=
  ((polyEdges pts).any fun e => segIntersectsRect r e.1 e.2) ||
  pts.any (ptInRect r) ||
  (rectCorners r).any (pointInPoly pts)

/-- `GeoShapeEnum` from src/main.rs (and src/types.rs). -/
inductive GeoShapeEnum where
  | rect (r : GeoRect)
  | polygon (pts : List Pt)
deriving DecidableEq

/-- The `match &geo_shape` dispatch of `import_cell_shapes`:
`r.intersects(extents)` / `p.intersects(extents)`. -/
def shapeIntersects (g : GeoShapeEnum) (extents : GeoRect) : Bool :=
  match g with
  | .rect r => rectIntersects r extents
  | .polygon pts => polyIntersectsRect pts extents

/-- `Tile` from src/main.rs: world-space extents plus the list of indices
of the shapes binned into the tile. -/
structure Tile where
  extents : GeoRect
  shapes : List Nat
deriving DecidableEq

/-- The `TileMap` (`HashMap<(u32, u32), Tile>`) as a partial map. -/
def TileMapF : Type := (Nat × Nat) → Option Tile

/-- `HashMap::insert` / in-place mutation of one entry. -/
def tmUpdate (tm : TileMapF) (k : Nat × Nat) (t : Tile) : TileMapF :=
  fun q => if q = k then some t else tm q

/-- The `as u32` cast of the binner: reduce an isize modulo 2^32. -/
def toU32 (z : Int) : Nat :=
  (z % 4294967296).toNat

/-- The tile allocation loops of `load_lib_system` (src/main.rs lines
297–321): iterate `iy` over `0..num_y_tiles` and `ix` over
`0..num_x_tiles`, keeping running world-space coordinates that start at
the aggregate box's minimum corner and advance by `texture_dim`; each
tile gets extents `GeoRect::new((xmin, ymin), (xmax, ymax))` and an empty
shape list.  `x` is reset to `bbox.p0.x` after each row. -/
def buildTilemap (p0 : Pt) (numX numY T : Nat) : TileMapF :=
  ((List.range numY).foldl
    (fun (s : TileMapF × Int) iy =>
      let ymin := s.2
      let ymax := s.2 + (T : Int)
      let inner := (List.range numX).foldl
        (fun (s2 : TileMapF × Int) ix =>
          (tmUpdate s2.1 (ix, iy)
            ⟨mkGeoRect ⟨s2.2, ymin⟩ ⟨s2.2 + (T : Int), ymax⟩, []⟩,
           s2.2 + (T : Int)))
        (s.1, p0.x)
      (inner.1, ymax))
    ((fun _ => none), p0.y)).1

/-- The `tilemap_shift` computation of `load_lib_system`: negate a
negative minimum coordinate, leave a non-negative one untouched. -/
def tilemapShift (p0 : Pt) : Pt :=
  ⟨if p0.x < 0 then -p0.x else 0, if p0.y < 0 then -p0.y else 0⟩

/-- Modelled from the source's `(d as f32 / texture_dim as f32).ceil()`:
exact ceiling division (the source computes it in 32-bit floating point,
which is exact at the magnitudes exercised here). -/
def numTiles (d T : Nat) : Nat :=
  (d + T - 1) / T

/-- The candidate tile keys visited by the binner's nested loops
`for x in min_tile_x..(max_tile_x + 1) { for y in min_tile_y..(max_tile_y + 1) }`. -/
def candKeys (minX maxX minY maxY : Nat) : List (Nat × Nat) :=
  (List.range' minX (maxX + 1 - minX)).flatMap fun x =>
    (List.range' minY (maxY + 1 - minY)).map fun y => (x, y)

/-- The per-candidate-tile body of `import_cell_shapes`: look the tile up
(`unwrap` panics on a missing key, hence `none`), test the shape against
the tile's extents, and push the shape index on overlap. -/
def binStep (idx : Nat) (g : GeoShapeEnum) (tm : TileMapF) (k : Nat × Nat) :
    Option TileMapF :=
  match tm k with
  | none => none
  | some t =>
      some (if shapeIntersects g t.extents
        then tmUpdate tm k ⟨t.extents, t.shapes ++ [idx]⟩
        else tm)

/-- The binner's nested candidate loops for one shape. -/
def binShape (idx : Nat) (g : GeoShapeEnum) (keys : List (Nat × Nat))
    (tm : TileMapF) : Option TileMapF :=
  keys.foldlM (binStep idx g) tm

/-- The inline path-to-polygon conversion of `import_cell_shapes`
(src/main.rs lines 604–646): for every point index `ix` (wrapping around
to the first point for the successor of the last), offset perpendicular
in y when the two points share x, in x otherwise; the polygon is the
forward chain followed by the reversed backward chain. -/
def inlinePathPoly (pts : List Pt) (half : Int) : List Pt :=
  let n := pts.length
  let c := (List.range n).foldl
    (fun (c : Chains) ix =>
      let p0 := pts.getD ix ⟨0, 0⟩
      let p1 := pts.getD ((ix + 1) % n) ⟨0, 0⟩
      if p0.x = p1.x then
        (c.1 ++ [⟨p0.x, p0.y - half⟩], c.2 ++ [⟨p0.x, p0.y + half⟩])
      else
        (c.1 ++ [⟨p0.x + half, p0.y⟩], c.2 ++ [⟨p0.x - half, p0.y⟩]))
    ([], [])
  c.1 ++ c.2.reverse

/-- The `match inner` of `import_cell_shapes` constructing the
`GeoShapeEnum` for a raw shape: rect and polygon are taken as-is (in
world coordinates); a path is converted inline after the
`assert_eq!(p.width % 2, 0)` check (the panic is `none`). -/
def geomOf : RawShape → Option GeoShapeEnum
  | .rect p0 p1 => some (.rect (mkGeoRect p0 p1))
  | .polygon pts => some (.polygon pts)
  | .path pts width =>
      if width % 2 ≠ 0 then none
      else some (.polygon (inlinePathPoly pts ((width / 2 : Nat) : Int)))

/-- The candidate key range the binner derives for one raw shape: its
bbox is shifted by `tilemap_shift`, each corner cast `as u32` and divided
by `texture_dim`. -/
def candKeysOf (shiftV : Pt) (T : Nat) (e : RawShape) : List (Nat × Nat) :=
  let bb := elemBBox e
  let p0 := bb.p0.shift shiftV
  let p1 := bb.p1.shift shiftV
  candKeys (toU32 p0.x / T) (toU32 p1.x / T) (toU32 p0.y / T) (toU32 p1.y / T)

/-- One iteration of `import_cell_shapes`' element loop: skip shapes with
an empty bbox, otherwise build the geo shape (the odd-width path assert
may panic) and run the candidate loops (a missing tile key's `unwrap`
may panic).  `texture_dim = 0` would make the `u32` division panic. -/
def importStep (shiftV : Pt) (T : Nat) (tm : TileMapF) (idx : Nat)
    (e : RawShape) : Option TileMapF :=
  if (elemBBox e).isEmpty then some tm
  else if T = 0 then none
  else
    match geomOf e with
    | none => none
    | some g => binShape idx g (candKeysOf shiftV T e) tm

/-- The element loop of `import_cell_shapes` with its `enumerate` index,
starting from `idx`. -/
def importAux (shiftV : Pt) (T : Nat) :
    Nat → TileMapF → List RawShape → Option TileMapF
  | _, tm, [] => some tm
  | idx, tm, e :: rest =>
      match importStep shiftV T tm idx e with
      | none => none
      | some tm2 => importAux shiftV T (idx + 1) tm2 rest

/-- `import_cell_shapes` from src/main.rs: one pass over the enumerated
element list. -/
def importCellShapes (shiftV : Pt) (T : Nat) (tm : TileMapF)
    (elems : List RawShape) : Option TileMapF :=
  importAux shiftV T 0 tm elems

/-- The aggregate bounding-box fold of `load_lib_system`
(`bbox = elem.inner.union(&bbox)` over all flattened elements). -/
def aggBBox (elems : List RawShape) : BoundBox :=
  elems.foldl (fun bb e => e.union bb) .empty

/-- `load_lib_system`'s grid pipeline (src/main.rs lines 269–339): fold
the aggregate box (`assert!(!bbox.is_empty())` modelled as `none`),
derive tile counts from the f32-ceiling division of the box dimensions,
compute `tilemap_shift`, allocate the tile grid and run
`import_cell_shapes` over the same elements. -/
def runPipeline (elems : List RawShape) (T : Nat) : Option TileMapF :=
  let bb := aggBBox elems
  if bb.isEmpty then none
  else
    let dx := toU32 (bb.p1.x - bb.p0.x)
    let dy := toU32 (bb.p1.y - bb.p0.y)
    let tm := buildTilemap bb.p0 (numTiles dx T) (numTiles dy T) T
    importCellShapes (tilemapShift bb.p0) T tm elems

/-- A concrete two-rect batch with tile size 100: the aggregate box is
(0,0)–(150,150), giving a 2×2 grid; the second rect (100,0)–(150,50)
spans only tile (1,0) by candidate range but touches tile (0,0)'s
closed extents along the seam x = 100. -/
def exElems : List RawShape :=
  [RawShape.rect ⟨0, 0⟩ ⟨150, 150⟩, RawShape.rect ⟨100, 0⟩ ⟨150, 50⟩]

/-! ### The occupancy reporter of src/utils.rs -/

/-- The entry list of a `Tilemap` (`HashMap<(u32, u32), Tile>`); the
HashMap's iteration order is unspecified, and every quantity the
reporter computes from it is order-insensitive. -/
abbrev TileEntries : Type := List ((Nat × Nat) × Tile)

/-- `get_grid_shape` from src/utils.rs: fold the four running bounds
(all starting at 0, with the `if x < x_min else if x > x_max` update)
over the keys and return `(x_max - x_min + 1, y_max - y_min + 1)`. -/
def getGridShape (keys : List (Nat × Nat)) : Nat × Nat :=
  let s := keys.foldl
    (fun (s : (Nat × Nat) × (Nat × Nat)) k =>
      let sx := if k.1 < s.1.1 then (k.1, s.1.2)
        else if k.1 > s.1.2 then (s.1.1, k.1) else s.1
      let sy := if k.2 < s.2.1 then (k.2, s.2.2)
        else if k.2 > s.2.2 then (s.2.1, k.2) else s.2
      (sx, sy))
    ((0, 0), (0, 0))
  (s.1.2 - s.1.1 + 1, s.2.2 - s.2.1 + 1)

/-- `HashMap::get` over the entry list. -/
def lookupEntry (entries : TileEntries) (k : Nat × Nat) : Option Tile :=
  (entries.find? fun e => decide (e.1 = k)).map fun e => e.2

/-- The record of quantities reported by `tilemap_stats_and_debug`:
occupied-bin count, the min/max/integer-average of the per-tile counts,
the total count including duplicates, the grid shape, and the bin count
that serves as the occupancy ratio's denominator (the ratio itself and
the float average-per-occupied-bin are f32 quotients of the fields
recorded here). -/
structure GridStats where
  numOccupiedBins : Nat
  minCount : Nat
  maxCount : Nat
  numShapesInclDuplicates : Nat
  avgSpob : Nat
  gridX : Nat
  gridY : Nat
  numBins : Nat
deriving DecidableEq

/-- `tilemap_stats_and_debug` from src/utils.rs: collect the per-tile
shape counts, take `min()/max().unwrap()` over ALL of them (`none` on an
empty map), count the non-zero ones, sum them, divide the sum by the
TOTAL tile count for `avg_spob`, and compute the grid shape; the CSV
export loop's `grid.get(&(ix, iy)).unwrap()` panics (`none`) unless the
map is dense over the computed shape. -/
def tilemapStats (entries : TileEntries) : Option GridStats :=
  let counts := entries.map fun e => e.2.shapes.length
  match counts.min?, counts.max? with
  | some mn, some mx =>
      let numOccupied := (counts.filter fun c => decide (c ≠ 0)).length
      let total := counts.sum
      let avg := total / counts.length
      let gs := getGridShape (entries.map fun e => e.1)
      if (List.range gs.2).all (fun iy => (List.range gs.1).all
          fun ix => (lookupEntry entries (ix, iy)).isSome) then
        some ⟨numOccupied, mn, mx, total, avg, gs.1, gs.2, gs.1 * gs.2⟩
      else none
  | _, _ => none

/-- The entry list of a populated dense grid over
`[0, nx) × [0, ny)`, with extents and shape list given pointwise (a
canonical enumeration order standing in for the HashMap's unspecified
one; `tilemapStats` is insensitive to the order). -/
def denseEntries (nx ny : Nat) (ext : Nat × Nat → GeoRect)
    (f : Nat × Nat → List Nat) : TileEntries :=
  (List.range ny).flatMap fun iy =>
    (List.range nx).map fun ix => ((ix, iy), ⟨ext (ix, iy), f (ix, iy)⟩)

/-- Shape lists for a concrete 2×1 grid: tile (0,0) holds three shapes,
tile (1,0) is empty. -/
def exShapesFn : Nat × Nat → List Nat :=
  fun k => if k = (0, 0) then [5, 6, 7] else []

/-- Constant extents for the concrete stats example. -/
def exExt : Nat × Nat → GeoRect :=
  fun _ => ⟨⟨0, 0⟩, ⟨1, 1⟩⟩

/-! ### Helper lemmas about the offsetter -/

/-- `calculateMove` fails exactly on identical or diagonal point pairs. -/
lemma calculateMove_eq_none_iff (p q : Pt) :
    calculateMove p q = none ↔
      ((p.x = q.x ∧ p.y = q.y) ∨ (p.x ≠ q.x ∧ p.y ≠ q.y)) := by
  unfold calculateMove
  split_ifs <;> simp_all

/-- A monadic fold over `Option` fails as soon as some list element makes
the step fail regardless of the accumulated state. -/
lemma foldlM_option_eq_none {α β : Type} (f : β → α → Option β)
    (l : List α) (a : α) (ha : a ∈ l) (hf : ∀ s, f s a = none) :
    ∀ init, l.foldlM f init = none := by
  induction l with
  | nil => cases ha
  | cons b t ih =>
      intro init
      rcases List.mem_cons.mp ha with h | h
      · subst h
        simp [List.foldlM_cons, hf init]
      · cases hfb : f init b with
        | none => simp [List.foldlM_cons, hfb]
        | some s => simp [List.foldlM_cons, hfb, ih h]

/-! ### Characterization of the allocated tile grid -/

/-- Applying a one-entry map update. -/
lemma tmUpdate_apply (tm : TileMapF) (k : Nat × Nat) (t : Tile)
    (q : Nat × Nat) :
    tmUpdate tm k t q = if q = k then some t else tm q := rfl

/-- The running x coordinate of one allocation row ends at `x0 + n·T`. -/
lemma buildRow_snd (ymin ymax : Int) (T : Nat) (iy : Nat) :
    ∀ (n : Nat) (tm : TileMapF) (x0 : Int),
      ((List.range n).foldl
        (fun (s2 : TileMapF × Int) ix =>
          (tmUpdate s2.1 (ix, iy)
            ⟨mkGeoRect ⟨s2.2, ymin⟩ ⟨s2.2 + (T : Int), ymax⟩, []⟩,
           s2.2 + (T : Int)))
        (tm, x0)).2 = x0 + n * T := by
  intro n
  induction n with
  | zero => intro tm x0; simp
  | succ n ih =>
      intro tm x0
      rw [List.range_succ, List.foldl_append]
      simp only [List.foldl_cons, List.foldl_nil, ih]
      push_cast
      ring

/-- Lookup after one allocation row: keys of that row that were reached
get their fresh tile, all other keys keep their previous binding. -/
lemma buildRow_fst (ymin ymax : Int) (T : Nat) (iy : Nat) :
    ∀ (n : Nat) (tm : TileMapF) (x0 : Int) (k : Nat × Nat),
      ((List.range n).foldl
        (fun (s2 : TileMapF × Int) ix =>
          (tmUpdate s2.1 (ix, iy)
            ⟨mkGeoRect ⟨s2.2, ymin⟩ ⟨s2.2 + (T : Int), ymax⟩, []⟩,
           s2.2 + (T : Int)))
        (tm, x0)).1 k =
      if k.2 = iy ∧ k.1 < n then
        some ⟨mkGeoRect ⟨x0 + k.1 * T, ymin⟩ ⟨x0 + (k.1 + 1) * T, ymax⟩, []⟩
      else tm k := by
  intro n
  induction n with
  | zero => intro tm x0 k; simp
  | succ n ih =>
      intro tm x0 k
      rw [List.range_succ, List.foldl_append]
      simp only [List.foldl_cons, List.foldl_nil]
      rw [show ((List.range n).foldl
        (fun (s2 : TileMapF × Int) ix =>
          (tmUpdate s2.1 (ix, iy)
            ⟨mkGeoRect ⟨s2.2, ymin⟩ ⟨s2.2 + (T : Int), ymax⟩, []⟩,
           s2.2 + (T : Int)))
        (tm, x0)).2 = x0 + n * T from buildRow_snd ymin ymax T iy n tm x0]
      rw [tmUpdate_apply]
      by_cases hk : k = (n, iy)
      · subst hk
        have harg : x0 + (n : Int) * T + T = x0 + ((n : Int) + 1) * T := by
          ring
        simp [harg]
      · rw [if_neg hk, ih]
        rcases k with ⟨kx, ky⟩
        by_cases hy : ky = iy
        · subst hy
          by_cases hx : kx < n
          · simp [hx, Nat.lt_succ_of_lt hx]
          · have hxn : kx ≠ n := fun h => hk (by simp [h])
            have hnot : ¬ kx < n + 1 := by omega
            simp [hx, hnot]
        · simp [hy]

/-- Lookup after the whole allocation double loop, starting from an
arbitrary map and running y coordinate. -/
lemma buildCols_fst (p0 : Pt) (numX T : Nat) :
    ∀ (m : Nat) (tm : TileMapF) (y0 : Int) (k : Nat × Nat),
      ((List.range m).foldl
        (fun (s : TileMapF × Int) iy =>
          let ymin := s.2
          let ymax := s.2 + (T : Int)
          let inner := (List.range numX).foldl
            (fun (s2 : TileMapF × Int) ix =>
              (tmUpdate s2.1 (ix, iy)
                ⟨mkGeoRect ⟨s2.2, ymin⟩ ⟨s2.2 + (T : Int), ymax⟩, []⟩,
               s2.2 + (T : Int)))
            (s.1, p0.x)
          (inner.1, ymax))
        (tm, y0)).1 k =
      if k.1 < numX ∧ k.2 < m then
        some ⟨mkGeoRect ⟨p0.x + k.1 * T, y0 + k.2 * T⟩
          ⟨p0.x + (k.1 + 1) * T, y0 + (k.2 + 1) * T⟩, []⟩
      else tm k := by
  intro m
  induction m with
  | zero => intro tm y0 k; simp
  | succ m ih =>
      intro tm y0 k
      have hsnd : ∀ (tm2 : TileMapF) (y1 : Int),
          ((List.range m).foldl
            (fun (s : TileMapF × Int) iy =>
              let ymin := s.2
              let ymax := s.2 + (T : Int)
              let inner := (List.range numX).foldl
                (fun (s2 : TileMapF × Int) ix =>
                  (tmUpdate s2.1 (ix, iy)
                    ⟨mkGeoRect ⟨s2.2, ymin⟩ ⟨s2.2 + (T : Int), ymax⟩, []⟩,
                   s2.2 + (T : Int)))
                (s.1, p0.x)
              (inner.1, ymax))
            (tm2, y1)).2 = y1 + m * T := by
        clear ih
        induction m with
        | zero => intro tm2 y1; simp
        | succ m ih2 =>
            intro tm2 y1
            rw [List.range_succ, List.foldl_append]
            simp only [List.foldl_cons, List.foldl_nil, ih2]
            push_cast
            ring
      rw [List.range_succ, List.foldl_append]
      simp only [List.foldl_cons, List.foldl_nil]
      rw [buildRow_fst, hsnd, ih]
      rcases k with ⟨kx, ky⟩
      by_cases hy : ky = m
      · subst hy
        by_cases hx : kx < numX
        · have harg : y0 + (ky : Int) * T + T = y0 + ((ky : Int) + 1) * T := by
            ring
          simp [hx, harg]
        · simp [hx]
      · by_cases hym : ky < m
        · have h1 : ky < m + 1 := by omega
          simp [hy, hym, h1]
        · have h1 : ¬ ky < m + 1 := by omega
          simp [hy, hym, h1]

/-- Lookup in the allocated tile grid: exactly the keys of
`[0, numX) × [0, numY)` are bound, each to an empty tile whose extents
are the world-space square starting at `p0 + (ix·T, iy·T)`. -/
lemma buildTilemap_lookup (p0 : Pt) (numX numY T : Nat) (k : Nat × Nat) :
    buildTilemap p0 numX numY T k =
      if k.1 < numX ∧ k.2 < numY then
        some ⟨mkGeoRect ⟨p0.x + k.1 * T, p0.y + k.2 * T⟩
          ⟨p0.x + (k.1 + 1) * T, p0.y + (k.2 + 1) * T⟩, []⟩
      else none := by
  unfold buildTilemap
  rw [buildCols_fst]

/-- Every tile allocated by the grid builder starts with no shapes. -/
lemma buildTilemap_shapes_empty (p0 : Pt) (numX numY T : Nat)
    (k : Nat × Nat) (t : Tile) (h : buildTilemap p0 numX numY T k = some t) :
    t.shapes = [] := by
  rw [buildTilemap_lookup] at h
  split_ifs at h
  all_goals first
  | exact Option.noConfusion h
  | (rw [← Option.some.inj h])

/-! ### Behaviour of the binner's candidate loops -/

/-- The candidate key list enumerates each tile key at most once. -/
lemma candKeys_nodup (minX maxX minY maxY : Nat) :
    (candKeys minX maxX minY maxY).Nodup := by
  unfold candKeys
  rw [List.nodup_flatMap]
  refine ⟨fun x _ => ?_, ?_⟩
  · have hinj : Function.Injective (fun y => ((x, y) : Nat × Nat)) := by
      intro a b hab
      simpa using congrArg Prod.snd hab
    exact List.Nodup.map hinj (List.nodup_range' _ _)
  · refine List.Pairwise.imp ?_ (List.nodup_range' _ _)
    intro a b hab
    simp only [Function.onFun, List.disjoint_left]
    intro k hk hk2
    simp only [List.mem_map] at hk hk2
    obtain ⟨y1, _, rfl⟩ := hk
    obtain ⟨y2, _, h2⟩ := hk2
    have hx : b = a := by simpa using congrArg Prod.fst h2
    exact hab hx.symm

/-- Unpacking one successful candidate-tile step. -/
lemma binStep_eq_some (idx : Nat) (g : GeoShapeEnum) (tm : TileMapF)
    (k : Nat × Nat) (tm1 : TileMapF)
    (h : binStep idx g tm k = some tm1) :
    ∃ t, tm k = some t ∧
      tm1 = if shapeIntersects g t.extents
        then tmUpdate tm k ⟨t.extents, t.shapes ++ [idx]⟩
        else tm := by
  unfold binStep at h
  cases htk : tm k with
  | none => rw [htk] at h; exact Option.noConfusion h
  | some t =>
      rw [htk] at h
      exact ⟨t, rfl, (Option.some.inj h).symm⟩

/-- A successful candidate step leaves every other key unchanged. -/
lemma binStep_apply_ne (idx : Nat) (g : GeoShapeEnum) (tm : TileMapF)
    (k0 : Nat × Nat) (tm1 : TileMapF)
    (h : binStep idx g tm k0 = some tm1) (k : Nat × Nat) (hk : k ≠ k0) :
    tm1 k = tm k := by
  obtain ⟨t, _, rfl⟩ := binStep_eq_some idx g tm k0 tm1 h
  split_ifs with hc
  · rw [tmUpdate_apply, if_neg hk]
  · rfl

/-- Keys not visited by the candidate loops are unchanged. -/
lemma binShape_not_mem (idx : Nat) (g : GeoShapeEnum) :
    ∀ (keys : List (Nat × Nat)) (tm tm2 : TileMapF),
      binShape idx g keys tm = some tm2 →
      ∀ k, k ∉ keys → tm2 k = tm k := by
  intro keys
  induction keys with
  | nil =>
      intro tm tm2 h k _
      cases h
      rfl
  | cons k0 rest ih =>
      intro tm tm2 h k hk
      unfold binShape at h
      rw [List.foldlM_cons] at h
      cases hstep : binStep idx g tm k0 with
      | none => rw [hstep] at h; exact Option.noConfusion h
      | some tm1 =>
          rw [hstep] at h
          have h2 : binShape idx g rest tm1 = some tm2 := h
          rw [ih tm1 tm2 h2 k fun hm => hk (List.mem_cons_of_mem _ hm)]
          exact binStep_apply_ne idx g tm k0 tm1 hstep k
            fun he => hk (he ▸ List.mem_cons_self _ _)

/-- If the candidate loops all succeed, every bound key stays bound (and
if the final map binds a key, so did the initial one). -/
lemma binShape_dom_rev (idx : Nat) (g : GeoShapeEnum) :
    ∀ (keys : List (Nat × Nat)) (tm tm2 : TileMapF),
      binShape idx g keys tm = some tm2 →
      ∀ k t2, tm2 k = some t2 → ∃ t, tm k = some t := by
  intro keys
  induction keys with
  | nil =>
      intro tm tm2 h k t2 hk
      cases h
      exact ⟨t2, hk⟩
  | cons k0 rest ih =>
      intro tm tm2 h k t2 hk
      unfold binShape at h
      rw [List.foldlM_cons] at h
      cases hstep : binStep idx g tm k0 with
      | none => rw [hstep] at h; exact Option.noConfusion h
      | some tm1 =>
          rw [hstep] at h
          obtain ⟨t1, ht1⟩ := ih tm1 tm2 h k t2 hk
          obtain ⟨t0, ht0, rfl⟩ := binStep_eq_some idx g tm k0 tm1 hstep
          by_cases he : k = k0
          · exact ⟨t0, he ▸ ht0⟩
          · refine ⟨t1, ?_⟩
            rw [← ht1]
            split_ifs with hc
            · rw [tmUpdate_apply, if_neg he]
            · rfl

/-- A key visited by a successful candidate loop was bound beforehand
(the `unwrap` would have panicked otherwise). -/
lemma binShape_mem_dom (idx : Nat) (g : GeoShapeEnum) :
    ∀ (keys : List (Nat × Nat)) (tm tm2 : TileMapF),
      binShape idx g keys tm = some tm2 →
      ∀ k, k ∈ keys → ∃ t, tm k = some t := by
  intro keys
  induction keys with
  | nil =>
      intro tm tm2 _ k hk
      cases hk
  | cons k0 rest ih =>
      intro tm tm2 h k hk
      unfold binShape at h
      rw [List.foldlM_cons] at h
      cases hstep : binStep idx g tm k0 with
      | none => rw [hstep] at h; exact Option.noConfusion h
      | some tm1 =>
          rw [hstep] at h
          obtain ⟨t0, ht0, rfl⟩ := binStep_eq_some idx g tm k0 tm1 hstep
          rcases List.mem_cons.mp hk with he | hm
          · exact ⟨t0, he ▸ ht0⟩
          · obtain ⟨t1, ht1⟩ := ih _ tm2 h k hm
            by_cases he : k = k0
            · exact ⟨t0, he ▸ ht0⟩
            · refine ⟨t1, ?_⟩
              rw [← ht1]
              split_ifs with hc
              · rw [tmUpdate_apply, if_neg he]
              · rfl

/-- What one shape's candidate loops do to a key of a duplicate-free
candidate list: either the tile is untouched, or it gains exactly one
copy of the shape's index, with the overlap test as witness. -/
lemma binShape_spec (idx : Nat) (g : GeoShapeEnum) :
    ∀ (keys : List (Nat × Nat)) (tm tm2 : TileMapF),
      binShape idx g keys tm = some tm2 →
      ∀ k t, tm k = some t → keys.Nodup →
      tm2 k = some t ∨
        (tm2 k = some ⟨t.extents, t.shapes ++ [idx]⟩ ∧
          shapeIntersects g t.extents = true ∧ k ∈ keys) := by
  intro keys
  induction keys with
  | nil =>
      intro tm tm2 h k t ht _
      cases h
      exact Or.inl ht
  | cons k0 rest ih =>
      intro tm tm2 h k t ht hnd
      have hk0nd : k0 ∉ rest := (List.nodup_cons.mp hnd).1
      have hnd2 : rest.Nodup := (List.nodup_cons.mp hnd).2
      unfold binShape at h
      rw [List.foldlM_cons] at h
      cases hstep : binStep idx g tm k0 with
      | none => rw [hstep] at h; exact Option.noConfusion h
      | some tm1 =>
          rw [hstep] at h
          obtain ⟨t0, ht0, rfl⟩ := binStep_eq_some idx g tm k0 tm1 hstep
          by_cases he : k = k0
          · subst he
            have ht0' : t0 = t := by
              rw [ht0] at ht
              exact Option.some.inj ht
            subst ht0'
            have hfix := binShape_not_mem idx g rest _ tm2 h k hk0nd
            split_ifs at hfix ⊢ with hc
            · rw [hfix, tmUpdate_apply, if_pos rfl]
              exact Or.inr ⟨rfl, hc, List.mem_cons_self _ _⟩
            · rw [hfix]
              exact Or.inl ht
          · have hstay : (if shapeIntersects g t0.extents
                then tmUpdate tm k0 ⟨t0.extents, t0.shapes ++ [idx]⟩
                else tm) k = some t := by
              split_ifs with hc
              · rw [tmUpdate_apply, if_neg he]
                exact ht
              · exact ht
            rcases ih _ tm2 h k t hstay hnd2 with h1 | ⟨h1, h2, h3⟩
            · exact Or.inl h1
            · exact Or.inr ⟨h1, h2, List.mem_cons_of_mem _ h3⟩

/-- Through a successful candidate loop each tile keeps its extents and
its shape list only grows at the end. -/
lemma binShape_mono (idx : Nat) (g : GeoShapeEnum) :
    ∀ (keys : List (Nat × Nat)) (tm tm2 : TileMapF),
      binShape idx g keys tm = some tm2 →
      ∀ k t, tm k = some t →
        ∃ l, tm2 k = some ⟨t.extents, t.shapes ++ l⟩ := by
  intro keys
  induction keys with
  | nil =>
      intro tm tm2 h k t ht
      cases h
      exact ⟨[], by simpa using ht⟩
  | cons k0 rest ih =>
      intro tm tm2 h k t ht
      unfold binShape at h
      rw [List.foldlM_cons] at h
      cases hstep : binStep idx g tm k0 with
      | none => rw [hstep] at h; exact Option.noConfusion h
      | some tm1 =>
          rw [hstep] at h
          obtain ⟨t0, ht0, rfl⟩ := binStep_eq_some idx g tm k0 tm1 hstep
          by_cases he : k = k0
          · subst he
            have ht0' : t0 = t := by
              rw [ht0] at ht
              exact Option.some.inj ht
            subst ht0'
            split_ifs at h with hc
            · have h2 : binShape idx g rest
                  (tmUpdate tm k ⟨t0.extents, t0.shapes ++ [idx]⟩) =
                  some tm2 := h
              obtain ⟨l, hl⟩ := ih _ tm2 h2 k ⟨t0.extents, t0.shapes ++ [idx]⟩
                (by rw [tmUpdate_apply, if_pos rfl])
              exact ⟨idx :: l, by simpa [List.append_assoc] using hl⟩
            · exact ih _ tm2 h k t0 ht
          · have hstay : (if shapeIntersects g t0.extents
                then tmUpdate tm k0 ⟨t0.extents, t0.shapes ++ [idx]⟩
                else tm) k = some t := by
              split_ifs with hc
              · rw [tmUpdate_apply, if_neg he]
                exact ht
              · exact ht
            exact ih _ tm2 h k t hstay

/-- A visited, bound, overlapping tile receives the shape's index. -/
lemma binShape_push (idx : Nat) (g : GeoShapeEnum) :
    ∀ (keys : List (Nat × Nat)) (tm tm2 : TileMapF),
      binShape idx g keys tm = some tm2 →
      ∀ k t, k ∈ keys → tm k = some t →
        shapeIntersects g t.extents = true →
        ∃ t2, tm2 k = some t2 ∧ idx ∈ t2.shapes ∧
          t2.extents = t.extents := by
  intro keys
  induction keys with
  | nil =>
      intro tm tm2 _ k t hk
      cases hk
  | cons k0 rest ih =>
      intro tm tm2 h k t hk ht hint
      unfold binShape at h
      rw [List.foldlM_cons] at h
      cases hstep : binStep idx g tm k0 with
      | none => rw [hstep] at h; exact Option.noConfusion h
      | some tm1 =>
          rw [hstep] at h
          obtain ⟨t0, ht0, rfl⟩ := binStep_eq_some idx g tm k0 tm1 hstep
          by_cases he : k = k0
          · subst he
            have ht0' : t0 = t := by
              rw [ht0] at ht
              exact Option.some.inj ht
            subst ht0'
            rw [if_pos hint] at h
            have h2 : binShape idx g rest
                (tmUpdate tm k ⟨t0.extents, t0.shapes ++ [idx]⟩) =
                some tm2 := h
            obtain ⟨l, hl⟩ := binShape_mono idx g rest _ tm2 h2 k
              ⟨t0.extents, t0.shapes ++ [idx]⟩ (by rw [tmUpdate_apply, if_pos rfl])
            refine ⟨_, hl, ?_, rfl⟩
            simp
          · rcases List.mem_cons.mp hk with he2 | hm
            · exact absurd he2 he
            · have hstay : (if shapeIntersects g t0.extents
                  then tmUpdate tm k0 ⟨t0.extents, t0.shapes ++ [idx]⟩
                  else tm) k = some t := by
                split_ifs with hc
                · rw [tmUpdate_apply, if_neg he]
                  exact ht
                · exact ht
              exact ih _ tm2 h k t hm hstay hint

/-- Invariant of the element loop: every tile of a successful run existed
before the run with the same extents, and its shape list grew by a
strictly increasing run of element indices, each recording a successful
overlap test of that element's geometry against the tile. -/
lemma importAux_spec (shiftV : Pt) (T : Nat) :
    ∀ (elems : List RawShape) (n : Nat) (tm g : TileMapF),
      importAux shiftV T n tm elems = some g →
      ∀ k t2, g k = some t2 →
        ∃ t, tm k = some t ∧ t2.extents = t.extents ∧
          ∃ l, t2.shapes = t.shapes ++ l ∧ l.Pairwise (· < ·) ∧
            ∀ j ∈ l, n ≤ j ∧ ∃ e geo, elems[j - n]? = some e ∧
              geomOf e = some geo ∧
              shapeIntersects geo t.extents = true := by
  intro elems
  induction elems with
  | nil =>
      intro n tm g h k t2 hk
      cases h
      exact ⟨t2, hk, rfl, [], by simp, List.Pairwise.nil, by simp⟩
  | cons e rest ih =>
      intro n tm g h k t2 hk
      unfold importAux at h
      cases hstep : importStep shiftV T tm n e with
      | none => rw [hstep] at h; exact Option.noConfusion h
      | some tm1 =>
          rw [hstep] at h
          have h2 : importAux shiftV T (n + 1) tm1 rest = some g := h
          obtain ⟨t1, ht1, hext, l1, hsh, hpair, hprop⟩ :=
            ih (n + 1) tm1 g h2 k t2 hk
          unfold importStep at hstep
          by_cases hempty : (elemBBox e).isEmpty
          · rw [if_pos hempty] at hstep
            have htm : tm1 = tm := (Option.some.inj hstep).symm
            subst htm
            refine ⟨t1, ht1, hext, l1, hsh, hpair, fun j hj => ?_⟩
            obtain ⟨hge, e2, geo, hel, hgeo, hint⟩ := hprop j hj
            refine ⟨by omega, e2, geo, ?_, hgeo, hint⟩
            have hidx : j - n = (j - (n + 1)) + 1 := by omega
            rw [hidx, List.getElem?_cons_succ]
            exact hel
          · rw [if_neg hempty] at hstep
            by_cases hT : T = 0
            · rw [if_pos hT] at hstep
              exact Option.noConfusion hstep
            · rw [if_neg hT] at hstep
              cases hg : geomOf e with
              | none => rw [hg] at hstep; exact Option.noConfusion hstep
              | some g0 =>
                  rw [hg] at hstep
                  obtain ⟨t0, ht0⟩ :=
                    binShape_dom_rev n g0 _ tm tm1 hstep k t1 ht1
                  have hcount : (candKeysOf shiftV T e).Nodup := by
                    unfold candKeysOf
                    exact candKeys_nodup _ _ _ _
                  rcases binShape_spec n g0 _ tm tm1 hstep k t0 ht0 hcount
                    with h1 | ⟨h1, hint0, hmem0⟩
                  · have ht01 : t0 = t1 := by
                      rw [h1] at ht1
                      exact Option.some.inj ht1
                    subst ht01
                    refine ⟨t0, ht0, hext, l1, hsh, hpair, fun j hj => ?_⟩
                    obtain ⟨hge, e2, geo, hel, hgeo, hint⟩ := hprop j hj
                    refine ⟨by omega, e2, geo, ?_, hgeo, hint⟩
                    have hidx : j - n = (j - (n + 1)) + 1 := by omega
                    rw [hidx, List.getElem?_cons_succ]
                    exact hel
                  · have ht1' : t1 = ⟨t0.extents, t0.shapes ++ [n]⟩ := by
                      rw [h1] at ht1
                      exact (Option.some.inj ht1).symm
                    subst ht1'
                    refine ⟨t0, ht0, by simpa using hext, n :: l1, ?_, ?_, ?_⟩
                    · rw [hsh]
                      simp
                    · rw [List.pairwise_cons]
                      refine ⟨fun j hj => ?_, hpair⟩
                      have := (hprop j hj).1
                      omega
                    · intro j hj
                      rcases List.mem_cons.mp hj with rfl | hj2
                      · refine ⟨le_refl j, e, g0, by simp, hg, hint0⟩
                      · obtain ⟨hge, e2, geo, hel, hgeo, hint⟩ := hprop j hj2
                        refine ⟨by omega, e2, geo, ?_, hgeo, by simpa using hint⟩
                        have hidx : j - n = (j - (n + 1)) + 1 := by omega
                        rw [hidx, List.getElem?_cons_succ]
                        exact hel

/-- Completeness of the element loop relative to the candidate range: an
element whose candidate loops visited tile `k` and whose geometry
overlaps that tile's extents ends up in the tile's shape list. -/
lemma importAux_complete (shiftV : Pt) (T : Nat) :
    ∀ (elems : List RawShape) (n : Nat) (tm g : TileMapF),
      importAux shiftV T n tm elems = some g →
      ∀ (j : Nat) (e : RawShape) (geo : GeoShapeEnum),
        elems[j]? = some e → geomOf e = some geo →
        (elemBBox e).isEmpty = false →
        ∀ k, k ∈ candKeysOf shiftV T e →
        ∀ t2, g k = some t2 →
        shapeIntersects geo t2.extents = true →
        (n + j) ∈ t2.shapes := by
  intro elems
  induction elems with
  | nil =>
      intro n tm g h j e geo hel
      simp at hel
  | cons e0 rest ih =>
      intro n tm g h j e geo hel hgeo hne k hk t2 ht2 hint
      unfold importAux at h
      cases hstep : importStep shiftV T tm n e0 with
      | none => rw [hstep] at h; exact Option.noConfusion h
      | some tm1 =>
          rw [hstep] at h
          have h2 : importAux shiftV T (n + 1) tm1 rest = some g := h
          cases j with
          | zero =>
              have he : e0 = e := by simpa using hel
              subst he
              unfold importStep at hstep
              rw [if_neg (by simp [hne])] at hstep
              by_cases hT : T = 0
              · rw [if_pos hT] at hstep
                exact Option.noConfusion hstep
              · rw [if_neg hT] at hstep
                rw [hgeo] at hstep
                obtain ⟨t, htk⟩ := binShape_mem_dom n geo _ tm tm1 hstep k hk
                obtain ⟨t1, ht1, hext12, _⟩ :=
                  importAux_spec shiftV T rest (n + 1) tm1 g h2 k t2 ht2
                obtain ⟨l0, hl0⟩ := binShape_mono n geo _ tm tm1 hstep k t htk
                have ht1eq : t1 = ⟨t.extents, t.shapes ++ l0⟩ := by
                  rw [hl0] at ht1
                  exact (Option.some.inj ht1).symm
                have hexts : t2.extents = t.extents := by
                  rw [hext12, ht1eq]
                obtain ⟨t2', ht2', hidx, _⟩ :=
                  binShape_push n geo _ tm tm1 hstep k t hk htk
                    (by rw [← hexts]; exact hint)
                have ht2'1 : t2' = t1 := by
                  rw [ht2'] at ht1
                  exact Option.some.inj ht1
                obtain ⟨t1', ht1', _, l2, hsh2, _, _⟩ :=
                  importAux_spec shiftV T rest (n + 1) tm1 g h2 k t2 ht2
                have ht1'1 : t1' = t2' := by
                  rw [ht2'] at ht1'
                  exact (Option.some.inj ht1').symm
                rw [Nat.add_zero]
                rw [hsh2, ht1'1]
                exact List.mem_append_left _ hidx
          | succ j2 =>
              have hel2 : rest[j2]? = some e := by simpa using hel
              have hres := ih (n + 1) tm1 g h2 j2 e geo hel2 hgeo hne k hk
                t2 ht2 hint
              have harith : n + (j2 + 1) = (n + 1) + j2 := by omega
              rw [harith]
              exact hres

/-! ### Claim C3: bounding box of the stroked L-shaped path -/

/-- C3 (counterexample): the 3-point L-shaped path (0,0)→(10,0)→(10,10)
with width 2 does NOT produce a polygon with bounding box (-1,-1)–(11,11):
its actual bounding box is (0,-1)–(11,10) — the butt end caps do not
extend along the direction of travel, so the claimed corners are wrong. -/
theorem C3_counterexample :
    shapeBBox (Shape.path [⟨0, 0⟩, ⟨10, 0⟩, ⟨10, 10⟩] 2 0) =
      some ⟨⟨0, -1⟩, ⟨11, 10⟩⟩ ∧
    (⟨⟨0, -1⟩, ⟨11, 10⟩⟩ : BoundingBox) ≠ ⟨⟨-1, -1⟩, ⟨11, 11⟩⟩ := by
  constructor
  · rfl
  · decide

/-- C3 (amended): the path offsetter applied to the 3-point L-shaped path
(0,0)→(10,0)→(10,10) with width 2 produces the polygon
(0,-1),(11,-1),(11,10),(9,10),(9,1),(0,1), whose bounding box is exactly
min (0,-1) to max (11,10). -/
theorem C3_amended_bbox :
    asPoly [⟨0, 0⟩, ⟨10, 0⟩, ⟨10, 10⟩] 2 =
      some [⟨0, -1⟩, ⟨11, -1⟩, ⟨11, 10⟩, ⟨9, 10⟩, ⟨9, 1⟩, ⟨0, 1⟩] ∧
    shapeBBox (Shape.path [⟨0, 0⟩, ⟨10, 0⟩, ⟨10, 10⟩] 2 0) =
      some ⟨⟨0, -1⟩, ⟨11, 10⟩⟩ := by
  constructor <;> rfl

/-! ### Claim C5: the two path offsetters disagree -/

/-- C5: on the valid rectilinear L-shaped path (0,0)→(10,0)→(10,10) with
width 2, `make_path_into_polygon` (src/path_to_poly.rs) and
`Path::as_poly` (src/shapes.rs) produce different vertex sequences:
the former anchors every interior-corner offset at `path.points[0]`
instead of the interior vertex, yielding (1,-1) and (-1,1) where the
latter yields (11,-1) and (9,1). -/
theorem C5_implementations_disagree :
    makePathIntoPolygon [⟨0, 0⟩, ⟨10, 0⟩, ⟨10, 10⟩] 2 =
      some [⟨0, -1⟩, ⟨1, -1⟩, ⟨11, 10⟩, ⟨9, 10⟩, ⟨-1, 1⟩, ⟨0, 1⟩] ∧
    asPoly [⟨0, 0⟩, ⟨10, 0⟩, ⟨10, 10⟩] 2 =
      some [⟨0, -1⟩, ⟨11, -1⟩, ⟨11, 10⟩, ⟨9, 10⟩, ⟨9, 1⟩, ⟨0, 1⟩] ∧
    ([⟨0, -1⟩, ⟨1, -1⟩, ⟨11, 10⟩, ⟨9, 10⟩, ⟨-1, 1⟩, ⟨0, 1⟩] : List Pt) ≠
      [⟨0, -1⟩, ⟨11, -1⟩, ⟨11, 10⟩, ⟨9, 10⟩, ⟨9, 1⟩, ⟨0, 1⟩] := by
  refine ⟨rfl, rfl, by decide⟩

/-! ### Claim C6: bounding-box construction invariant -/

/-- C6: `BoundingBox::new` fails exactly when the unvalidated pair has
equal x or equal y coordinates (zero width or height); otherwise it
normalizes by swapping where max < min, so every constructed box
satisfies min.x < max.x and min.y < max.y strictly and has the
componentwise extremes of the input pair.  Consequently `Shape::bbox` of
a Rect whose two corners coincide (any in-range i32 point) fails. -/
theorem C6_bbox_construction :
    (∀ u : UnvalidatedBoundingBox,
      ((BoundingBox.new u = none) ↔
        (u.min.x = u.max.x ∨ u.min.y = u.max.y)) ∧
      (∀ b, BoundingBox.new u = some b →
        b.min.x < b.max.x ∧ b.min.y < b.max.y ∧
        b.min.x = Min.min u.min.x u.max.x ∧
        b.max.x = Max.max u.min.x u.max.x ∧
        b.min.y = Min.min u.min.y u.max.y ∧
        b.max.y = Max.max u.min.y u.max.y)) ∧
    (∀ (p : Pt) (layer : Nat),
      i32Min ≤ p.x → p.x ≤ i32Max → i32Min ≤ p.y → p.y ≤ i32Max →
      shapeBBox (Shape.rect p p layer) = none) := by
  constructor
  · intro u
    constructor
    · unfold BoundingBox.new
      split_ifs <;> simp_all
    · intro b hb
      unfold BoundingBox.new at hb
      split_ifs at hb with h1 h2
      all_goals first
      | exact Option.noConfusion hb
      | (simp only [Option.some.injEq] at hb
         subst hb
         refine ⟨?_, ?_, ?_, ?_, ?_, ?_⟩ <;>
           (simp only [min_def, max_def]
            first
            | (split_ifs <;> omega)
            | omega))
  · intro p layer h1 h2 h3 h4
    show BoundingBox.new (foldCorner (foldCorner .invalid p) p) = none
    have hu : foldCorner (foldCorner .invalid p) p = ⟨⟨p.x, p.y⟩, ⟨p.x, p.y⟩⟩ := by
      unfold foldCorner UnvalidatedBoundingBox.invalid
      simp only [UnvalidatedBoundingBox.mk.injEq, Pt.mk.injEq]
      refine ⟨⟨?_, ?_⟩, ?_, ?_⟩
      · exact min_eq_left (le_min (le_refl _) h2)
      · exact min_eq_left (le_min (le_refl _) h4)
      · exact max_eq_left (max_le (le_refl _) h1)
      · exact max_eq_left (max_le (le_refl _) h3)
    rw [hu]
    unfold BoundingBox.new
    simp

/-! ### Claim C9: which malformed paths make the offsetter fail -/

/-- C9 (counterexample): a two-point path whose two points are identical
(and another whose segment is diagonal) is NOT rejected by the offsetter:
the two-point special case of `Path::as_poly` returns a polygon without
validating the segment, silently coercing the degenerate input. -/
theorem C9_counterexample :
    asPoly [⟨0, 0⟩, ⟨0, 0⟩] 2 =
      some [⟨1, 0⟩, ⟨1, 0⟩, ⟨-1, 0⟩, ⟨-1, 0⟩] ∧
    asPoly [⟨0, 0⟩, ⟨5, 7⟩] 2 =
      some [⟨0, -1⟩, ⟨5, 6⟩, ⟨5, 8⟩, ⟨0, 1⟩] := by
  constructor <;> rfl

/-- C9 (amended): the path offsetter fails on every odd stroke width and
on every path with fewer than 2 points; it fails on an identical or
non-rectilinear consecutive point pair whenever the path has at least 3
points — but a path with exactly 2 points takes a special-case branch
that performs no such validation. -/
theorem C9_amended_failures :
    (∀ (pts : List Pt) (w : Nat), w % 2 = 1 → asPoly pts w = none) ∧
    (∀ (pts : List Pt) (w : Nat), pts.length < 2 → asPoly pts w = none) ∧
    (∀ (pts : List Pt) (w : Nat) (i : Nat), 3 ≤ pts.length →
      i + 1 < pts.length →
      calculateMove (pts.getD i ⟨0, 0⟩) (pts.getD (i + 1) ⟨0, 0⟩) = none →
      asPoly pts w = none) := by
  refine ⟨?_, ?_, ?_⟩
  · intro pts w hw
    unfold asPoly
    simp [hw]
  · intro pts w hlen
    unfold asPoly
    split_ifs <;> first | rfl | omega
  · intro pts w i hlen hi hbad
    unfold asPoly
    split_ifs with h1 h2 h3
    · rfl
    · exact absurd h2 (by omega)
    · exact absurd h3 (by omega)
    · rcases Nat.eq_zero_or_pos i with hz | hpos
      · subst hz
        rw [hbad]
        rfl
      · cases hm : calculateMove (pts.getD 0 ⟨0, 0⟩) (pts.getD 1 ⟨0, 0⟩) with
        | none => rfl
        | some startM =>
            have hmem : i ∈ List.range' 1 (pts.length - 2) := by
              rw [List.mem_range'_1]
              omega
            have hfail := foldlM_option_eq_none
              (asPolyStep pts ((w / 2 : Nat) : Int))
              (List.range' 1 (pts.length - 2)) i hmem
              (fun s => by unfold asPolyStep; rw [hbad]; rfl)
            show (List.foldlM (asPolyStep pts ((w / 2 : Nat) : Int))
              (applyPure startM ([], []) (pts.getD 0 ⟨0, 0⟩)
                ((w / 2 : Nat) : Int), startM)
              (List.range' 1 (pts.length - 2))).bind _ = none
            rw [hfail]
            rfl

/-- C6 (witness): the construction theorem applied at the degenerate rect
(3,4)–(3,4) and at the unvalidated pair (0,5)/(3,2). -/
theorem C6_bbox_construction_witness :
    shapeBBox (Shape.rect ⟨3, 4⟩ ⟨3, 4⟩ 0) = none ∧
    BoundingBox.new ⟨⟨0, 5⟩, ⟨3, 2⟩⟩ = some ⟨⟨0, 2⟩, ⟨3, 5⟩⟩ ∧
    (0 : Int) < 3 := by
  refine ⟨?_, by decide, ?_⟩
  · exact C6_bbox_construction.2 ⟨3, 4⟩ 0 (by decide) (by decide)
      (by decide) (by decide)
  · exact ((C6_bbox_construction.1 ⟨⟨0, 5⟩, ⟨3, 2⟩⟩).2 ⟨⟨0, 2⟩, ⟨3, 5⟩⟩
      (by decide)).1

/-- C9 (witness): the failure theorem applied to an odd-width path, an
empty path, and a 3-point path with an identical consecutive pair. -/
theorem C9_amended_failures_witness :
    asPoly [⟨0, 0⟩, ⟨1, 0⟩] 3 = none ∧
    asPoly ([] : List Pt) 2 = none ∧
    asPoly [⟨0, 0⟩, ⟨1, 0⟩, ⟨1, 0⟩] 2 = none := by
  refine ⟨C9_amended_failures.1 _ 3 (by decide),
    C9_amended_failures.2.1 ([] : List Pt) 2 (by decide),
    C9_amended_failures.2.2 _ 2 1 (by decide) (by decide) (by decide)⟩

/-! ### Claim C10: bounding-box union is commutative and associative -/

/-- C10: `BoundingBox::union` is commutative and associative. -/
theorem C10_union_comm_assoc :
    ∀ a b c : BoundingBox,
      BoundingBox.union a b = BoundingBox.union b a ∧
      BoundingBox.union (BoundingBox.union a b) c =
        BoundingBox.union a (BoundingBox.union b c) := by
  intro a b c
  unfold BoundingBox.union
  refine ⟨?_, ?_⟩ <;>
    simp [min_comm, min_assoc, min_left_comm, max_comm, max_assoc,
      max_left_comm]

/-! ### Facts about the occupancy reporter -/

/-- `List.min?` on naturals is the least member. -/
lemma nat_min?_eq_some_iff {l : List Nat} {a : Nat} :
    l.min? = some a ↔ a ∈ l ∧ ∀ b ∈ l, a ≤ b :=
  List.min?_eq_some_iff (fun _ => le_refl _) (fun a b => min_choice a b)
    fun _ _ _ => le_min_iff

/-- `List.max?` on naturals is the greatest member. -/
lemma nat_max?_eq_some_iff {l : List Nat} {a : Nat} :
    l.max? = some a ↔ a ∈ l ∧ ∀ b ∈ l, b ≤ a :=
  List.max?_eq_some_iff (fun _ => le_refl _) (fun a b => max_choice a b)
    fun _ _ _ => max_le_iff

/-- A max-fold stays below any bound of its inputs. -/
lemma foldl_max_le {b : Nat} :
    ∀ (l : List Nat) (a : Nat), a ≤ b → (∀ x ∈ l, x ≤ b) →
      l.foldl Max.max a ≤ b := by
  intro l
  induction l with
  | nil =>
      intro a ha _
      simpa using ha
  | cons x tl ih =>
      intro a ha hx
      simp only [List.foldl_cons]
      exact ih _ (max_le ha (hx x (List.mem_cons_self _ _)))
        fun y hy => hx y (List.mem_cons_of_mem _ hy)

/-- A max-fold dominates its starting value. -/
lemma init_le_foldl_max : ∀ (l : List Nat) (a : Nat), a ≤ l.foldl Max.max a := by
  intro l
  induction l with
  | nil => intro a; simp
  | cons x tl ih =>
      intro a
      simp only [List.foldl_cons]
      exact le_trans (le_max_left a x) (ih _)

/-- A max-fold dominates every list member. -/
lemma le_foldl_max_of_mem :
    ∀ (l : List Nat) (a x : Nat), x ∈ l → x ≤ l.foldl Max.max a := by
  intro l
  induction l with
  | nil =>
      intro a x hx
      cases hx
  | cons y tl ih =>
      intro a x hx
      simp only [List.foldl_cons]
      rcases List.mem_cons.mp hx with rfl | h
      · exact le_trans (le_max_right a x) (init_le_foldl_max tl _)
      · exact ih _ x h

/-- The running-bounds fold of `get_grid_shape` keeps both minima at 0
and accumulates the maxima of both components. -/
lemma gridShapeFold_aux :
    ∀ (keys : List (Nat × Nat)) (xm ym : Nat),
      keys.foldl
        (fun (s : (Nat × Nat) × (Nat × Nat)) k =>
          let sx := if k.1 < s.1.1 then (k.1, s.1.2)
            else if k.1 > s.1.2 then (s.1.1, k.1) else s.1
          let sy := if k.2 < s.2.1 then (k.2, s.2.2)
            else if k.2 > s.2.2 then (s.2.1, k.2) else s.2
          (sx, sy))
        ((0, xm), (0, ym)) =
      ((0, keys.foldl (fun m k => Max.max m k.1) xm),
       (0, keys.foldl (fun m k => Max.max m k.2) ym)) := by
  intro keys
  induction keys with
  | nil => intro xm ym; rfl
  | cons k tl ih =>
      intro xm ym
      simp only [List.foldl_cons, Nat.not_lt_zero, if_false]
      have e1 : (if k.1 > xm then ((0 : Nat), k.1) else (0, xm)) =
          (0, Max.max xm k.1) := by
        rcases Nat.lt_or_ge xm k.1 with h | h
        · simp [h, Nat.max_eq_right (le_of_lt h)]
        · have h2 : ¬ k.1 > xm := by omega
          simp [h2, Nat.max_eq_left h]
      have e2 : (if k.2 > ym then ((0 : Nat), k.2) else (0, ym)) =
          (0, Max.max ym k.2) := by
        rcases Nat.lt_or_ge ym k.2 with h | h
        · simp [h, Nat.max_eq_right (le_of_lt h)]
        · have h2 : ¬ k.2 > ym := by omega
          simp [h2, Nat.max_eq_left h]
      rw [e1, e2, ih]

/-- `get_grid_shape` returns one more than the componentwise key maxima
(the running minima never move from 0 on u32 keys). -/
lemma getGridShape_eq (keys : List (Nat × Nat)) :
    getGridShape keys =
      (keys.foldl (fun m k => Max.max m k.1) 0 + 1,
       keys.foldl (fun m k => Max.max m k.2) 0 + 1) := by
  unfold getGridShape
  rw [gridShapeFold_aux]
  simp

/-- Membership in the dense entry list. -/
lemma denseEntries_mem (nx ny : Nat) (ext : Nat × Nat → GeoRect)
    (f : Nat × Nat → List Nat) (ix iy : Nat) (hx : ix < nx) (hy : iy < ny) :
    ((ix, iy), (⟨ext (ix, iy), f (ix, iy)⟩ : Tile)) ∈
      denseEntries nx ny ext f := by
  unfold denseEntries
  rw [List.mem_flatMap]
  exact ⟨iy, List.mem_range.mpr hy,
    List.mem_map.mpr ⟨ix, List.mem_range.mpr hx, rfl⟩⟩

/-- Conversely, every dense entry has this shape. -/
lemma denseEntries_mem_elim (nx ny : Nat) (ext : Nat × Nat → GeoRect)
    (f : Nat × Nat → List Nat) (e : (Nat × Nat) × Tile)
    (he : e ∈ denseEntries nx ny ext f) :
    ∃ ix iy, ix < nx ∧ iy < ny ∧
      e = ((ix, iy), ⟨ext (ix, iy), f (ix, iy)⟩) := by
  unfold denseEntries at he
  rw [List.mem_flatMap] at he
  obtain ⟨iy, hiy, he2⟩ := he
  rw [List.mem_map] at he2
  obtain ⟨ix, hix, he3⟩ := he2
  exact ⟨ix, iy, List.mem_range.mp hix, List.mem_range.mp hiy, he3.symm⟩

/-- The dense entry list has one entry per tile. -/
lemma denseEntries_length (nx ny : Nat) (ext : Nat × Nat → GeoRect)
    (f : Nat × Nat → List Nat) :
    (denseEntries nx ny ext f).length = nx * ny := by
  unfold denseEntries
  rw [List.length_flatMap]
  have hmap : (List.range ny).map
      (List.length ∘ fun iy => (List.range nx).map
        fun ix => (((ix, iy), (⟨ext (ix, iy), f (ix, iy)⟩ : Tile)))) =
      (List.range ny).map fun _ => nx := by
    apply List.map_congr_left
    intro a _
    simp
  rw [hmap, List.map_const', List.length_range, List.sum_replicate,
    smul_eq_mul]
  exact Nat.mul_comm ny nx

/-- The dense entry list passes the CSV loop's density check. -/
lemma denseEntries_lookup_isSome (nx ny : Nat) (ext : Nat × Nat → GeoRect)
    (f : Nat × Nat → List Nat) (ix iy : Nat) (hx : ix < nx) (hy : iy < ny) :
    (lookupEntry (denseEntries nx ny ext f) (ix, iy)).isSome = true := by
  unfold lookupEntry
  have hf : (List.find? (fun e => decide (e.1 = (ix, iy)))
      (denseEntries nx ny ext f)).isSome = true := by
    rw [List.find?_isSome]
    exact ⟨((ix, iy), ⟨ext (ix, iy), f (ix, iy)⟩),
      denseEntries_mem nx ny ext f ix iy hx hy, by simp⟩
  obtain ⟨e, he⟩ := Option.isSome_iff_exists.mp hf
  rw [he]
  rfl

/-- The grid shape computed from the dense entry list is (nx, ny). -/
lemma getGridShape_dense (nx ny : Nat) (ext : Nat × Nat → GeoRect)
    (f : Nat × Nat → List Nat) (hnx : 1 ≤ nx) (hny : 1 ≤ ny) :
    getGridShape ((denseEntries nx ny ext f).map fun e => e.1) = (nx, ny) := by
  rw [getGridShape_eq]
  have hconv1 : ((denseEntries nx ny ext f).map fun e => e.1).foldl
      (fun m k => Max.max m k.1) 0 =
      ((denseEntries nx ny ext f).map fun e => e.1.1).foldl Max.max 0 := by
    simp only [List.foldl_map]
  have hconv2 : ((denseEntries nx ny ext f).map fun e => e.1).foldl
      (fun m k => Max.max m k.2) 0 =
      ((denseEntries nx ny ext f).map fun e => e.1.2).foldl Max.max 0 := by
    simp only [List.foldl_map]
  have hfold1 : ((denseEntries nx ny ext f).map fun e => e.1.1).foldl
      Max.max 0 = nx - 1 := by
    apply le_antisymm
    · apply foldl_max_le _ _ (by omega)
      intro x hx
      rw [List.mem_map] at hx
      obtain ⟨e, he, rfl⟩ := hx
      obtain ⟨ix, iy, hix, hiy, rfl⟩ :=
        denseEntries_mem_elim nx ny ext f e he
      simp only []
      omega
    · apply le_foldl_max_of_mem
      rw [List.mem_map]
      exact ⟨((nx - 1, 0), ⟨ext (nx - 1, 0), f (nx - 1, 0)⟩),
        denseEntries_mem nx ny ext f (nx - 1) 0 (by omega) (by omega), rfl⟩
  have hfold2 : ((denseEntries nx ny ext f).map fun e => e.1.2).foldl
      Max.max 0 = ny - 1 := by
    apply le_antisymm
    · apply foldl_max_le _ _ (by omega)
      intro x hx
      rw [List.mem_map] at hx
      obtain ⟨e, he, rfl⟩ := hx
      obtain ⟨ix, iy, hix, hiy, rfl⟩ :=
        denseEntries_mem_elim nx ny ext f e he
      simp only []
      omega
    · apply le_foldl_max_of_mem
      rw [List.mem_map]
      exact ⟨((0, ny - 1), ⟨ext (0, ny - 1), f (0, ny - 1)⟩),
        denseEntries_mem nx ny ext f 0 (ny - 1) (by omega) (by omega), rfl⟩
  rw [hconv1, hconv2, hfold1, hfold2]
  rw [Prod.ext_iff]
  constructor <;> (simp only []; omega)

/-! ### Claim C8: the occupancy reporter -/

/-- C8 (counterexample): on a 2×1 grid with tile (0,0) holding three
shapes and tile (1,0) empty, the reporter returns min = 0 and integer
average = 1 (3 shapes / 2 tiles), whereas the minimum and mean of
shapes-per-tile over the occupied tiles only are both 3: min and the
integer average are taken over ALL tiles, not the occupied ones. -/
theorem C8_counterexample :
    tilemapStats (denseEntries 2 1 exExt exShapesFn) =
      some ⟨1, 0, 3, 3, 1, 2, 1, 2⟩ ∧
    ((denseEntries 2 1 exExt exShapesFn).map
      (fun e => e.2.shapes.length)).filter (fun c => decide (c ≠ 0)) = [3] ∧
    ([3] : List Nat).min? = some 3 ∧
    (0 : Nat) ≠ 3 ∧ (1 : Nat) ≠ 3 := by
  refine ⟨rfl, rfl, rfl, by decide, by decide⟩

/-- C8 (amended): on a populated dense nx×ny grid the reporter returns
the occupied-tile count as the number of tiles with a non-empty shape
list and the occupancy ratio's numerator/denominator as that count over
the total tile count nx·ny; the reported max equals the maximum of
shapes-per-tile over the occupied tiles whenever at least one tile is
occupied; but the reported min is the minimum over ALL tiles (0 whenever
some tile is empty) and the reported integer average divides the total
shape count by the total tile count, not by the occupied count (a
separate f32 average over occupied tiles is also printed, as the ratio
of the recorded sum and occupied-count fields). -/
theorem C8_amended_stats (nx ny : Nat) (ext : Nat × Nat → GeoRect)
    (f : Nat × Nat → List Nat) (hnx : 1 ≤ nx) (hny : 1 ≤ ny)
    (s : GridStats)
    (hs : tilemapStats (denseEntries nx ny ext f) = some s) :
    s.numOccupiedBins = (((denseEntries nx ny ext f).map
      (fun e => e.2.shapes.length)).filter fun c => decide (c ≠ 0)).length ∧
    s.gridX = nx ∧ s.gridY = ny ∧ s.numBins = nx * ny ∧
    (denseEntries nx ny ext f).length = nx * ny ∧
    s.numShapesInclDuplicates =
      ((denseEntries nx ny ext f).map fun e => e.2.shapes.length).sum ∧
    s.avgSpob = s.numShapesInclDuplicates / (nx * ny) ∧
    ((∃ k : Nat × Nat, k.1 < nx ∧ k.2 < ny ∧ f k ≠ []) →
      (((denseEntries nx ny ext f).map (fun e => e.2.shapes.length)).filter
        fun c => decide (c ≠ 0)).max? = some s.maxCount) ∧
    ((∃ k : Nat × Nat, k.1 < nx ∧ k.2 < ny ∧ f k = []) →
      s.minCount = 0) := by
  unfold tilemapStats at hs
  dsimp only at hs
  cases hmn : ((denseEntries nx ny ext f).map
      (fun e => e.2.shapes.length)).min? with
  | none =>
      rw [hmn] at hs
      exact Option.noConfusion hs
  | some mn =>
  cases hmx : ((denseEntries nx ny ext f).map
      (fun e => e.2.shapes.length)).max? with
  | none =>
      rw [hmn, hmx] at hs
      exact Option.noConfusion hs
  | some mx =>
  rw [hmn, hmx] at hs
  split_ifs at hs with hd
  · have hs2 : GridStats.mk
        ((((denseEntries nx ny ext f).map fun e => e.2.shapes.length).filter
          fun c => decide (c ≠ 0)).length) mn mx
        (((denseEntries nx ny ext f).map fun e => e.2.shapes.length).sum)
        ((((denseEntries nx ny ext f).map fun e => e.2.shapes.length).sum) /
          (((denseEntries nx ny ext f).map fun e => e.2.shapes.length).length))
        (getGridShape ((denseEntries nx ny ext f).map fun e => e.1)).1
        (getGridShape ((denseEntries nx ny ext f).map fun e => e.1)).2
        ((getGridShape ((denseEntries nx ny ext f).map fun e => e.1)).1 *
          (getGridShape ((denseEntries nx ny ext f).map fun e => e.1)).2)
        = s := Option.some.inj hs
    subst hs2
    have hgs := getGridShape_dense nx ny ext f hnx hny
    have hlen : ((denseEntries nx ny ext f).map
        fun e => e.2.shapes.length).length = nx * ny := by
      rw [List.length_map, denseEntries_length]
    refine ⟨rfl, ?_, ?_, ?_, denseEntries_length nx ny ext f, rfl, ?_, ?_, ?_⟩
    · rw [hgs]
    · rw [hgs]
    · rw [hgs]
    · rw [hlen]
    · rintro ⟨k, hk1, hk2, hkne⟩
      obtain ⟨hmem, hub⟩ := nat_max?_eq_some_iff.mp hmx
      have hkc : (f k).length ∈ (denseEntries nx ny ext f).map
          fun e => e.2.shapes.length := by
        rw [List.mem_map]
        refine ⟨((k.1, k.2), ⟨ext (k.1, k.2), f (k.1, k.2)⟩), ?_, by simp⟩
        exact denseEntries_mem nx ny ext f k.1 k.2 hk1 hk2
      have hkpos : 0 < (f k).length := List.length_pos.mpr hkne
      have hmxpos : 0 < mx := lt_of_lt_of_le hkpos (hub _ hkc)
      rw [nat_max?_eq_some_iff]
      constructor
      · rw [List.mem_filter]
        refine ⟨hmem, by simp; omega⟩
      · intro b hb
        exact hub b (List.mem_of_mem_filter hb)
    · rintro ⟨k, hk1, hk2, hke⟩
      obtain ⟨hmem, hlb⟩ := nat_min?_eq_some_iff.mp hmn
      have hkc : (0 : Nat) ∈ (denseEntries nx ny ext f).map
          fun e => e.2.shapes.length := by
        rw [List.mem_map]
        refine ⟨((k.1, k.2), ⟨ext (k.1, k.2), f (k.1, k.2)⟩), ?_, by simp [hke]⟩
        exact denseEntries_mem nx ny ext f k.1 k.2 hk1 hk2
      have h0 := hlb 0 hkc
      show mn = 0
      omega

/-- C8 (witness): the amended theorem applied to the concrete 2×1 grid
of `C8_counterexample`. -/
theorem C8_amended_stats_witness :
    (((denseEntries 2 1 exExt exShapesFn).map
      (fun e => e.2.shapes.length)).filter
        fun c => decide (c ≠ 0)).max? = some 3 ∧
    (0 : Nat) = 0 ∧ (2 : Nat) * 1 = 2 := by
  have h := C8_amended_stats 2 1 exExt exShapesFn (by omega) (by omega)
    ⟨1, 0, 3, 3, 1, 2, 1, 2⟩ (by rfl)
  refine ⟨?_, ?_, ?_⟩
  · exact h.2.2.2.2.2.2.2.1 ⟨(0, 0), by omega, by omega, by decide⟩
  · exact h.2.2.2.2.2.2.2.2 ⟨(1, 0), by omega, by omega, by decide⟩
  · rw [← h.2.2.2.1]

/-! ### Claim C2: no clamping — the binner walks off the grid -/

/-- C2 (code bug): the binner performs no clamping of the shifted bbox
corners.  On the simplest batch — one rect (0,0)–(100,100) with tile
size 100, giving a 1×1 grid — the candidate range is computed as tiles
(0..1)×(0..1), the loop looks up the unallocated key (0,1), and the
`unwrap` panics (the pipeline is `none`); with the clamping the claim
describes, the corners would be clamped to 99 and the range would stay
at tile (0,0). -/
theorem C2_missing_clamp_bug :
    runPipeline [RawShape.rect ⟨0, 0⟩ ⟨100, 100⟩] 100 = none ∧
    candKeysOf (tilemapShift ⟨0, 0⟩) 100 (RawShape.rect ⟨0, 0⟩ ⟨100, 100⟩) =
      [(0, 0), (0, 1), (1, 0), (1, 1)] ∧
    buildTilemap ⟨0, 0⟩ (numTiles 100 100) (numTiles 100 100) 100 (0, 1) =
      none := by
  refine ⟨rfl, rfl, rfl⟩

/-! ### Claim C1: binning soundness and completeness -/

/-- C1 (counterexample): on the two-rect batch `exElems` with tile size
100 the pipeline succeeds, the geometry of primitive 1 (the rect
(100,0)–(150,50)) touches tile (0,0)'s closed extents (0,0)–(100,100)
along the seam x = 100, yet tile (0,0)'s shape list is exactly [0]: the
"no false negatives" direction of the claim is false. -/
theorem C1_counterexample :
    (runPipeline exElems 100).bind (fun g => g (0, 0)) =
      some ⟨mkGeoRect ⟨0, 0⟩ ⟨100, 100⟩, [0]⟩ ∧
    exElems[1]? = some (RawShape.rect ⟨100, 0⟩ ⟨150, 50⟩) ∧
    geomOf (RawShape.rect ⟨100, 0⟩ ⟨150, 50⟩) =
      some (GeoShapeEnum.rect (mkGeoRect ⟨100, 0⟩ ⟨150, 50⟩)) ∧
    shapeIntersects (GeoShapeEnum.rect (mkGeoRect ⟨100, 0⟩ ⟨150, 50⟩))
      (mkGeoRect ⟨0, 0⟩ ⟨100, 100⟩) = true ∧
    (1 : Nat) ∉ ([0] : List Nat) := by
  refine ⟨rfl, rfl, rfl, rfl, by decide⟩

/-- C1 (amended): in any successful binning run over an initially empty
grid, (soundness) every index stored in a tile belongs to an element
whose geometry passed the overlap test against that tile's extents; and
(completeness restricted to the candidate range) every element with a
non-empty bbox whose geometry overlaps the extents of a tile lying in
the element's bbox-derived candidate range is stored in that tile.  The
unrestricted converse is refuted by `C1_counterexample`: a tile touched
by the geometry but outside the candidate range is missed. -/
theorem C1_amended_binning (shiftV : Pt) (T : Nat) (tm0 : TileMapF)
    (elems : List RawShape) (g : TileMapF)
    (hrun : importCellShapes shiftV T tm0 elems = some g)
    (hempty : ∀ k t, tm0 k = some t → t.shapes = [])
    (k : Nat × Nat) (t : Tile) (hk : g k = some t) :
    (∀ j ∈ t.shapes, ∃ e geo, elems[j]? = some e ∧ geomOf e = some geo ∧
      shapeIntersects geo t.extents = true) ∧
    (∀ (j : Nat) (e : RawShape) (geo : GeoShapeEnum),
      elems[j]? = some e → geomOf e = some geo →
      (elemBBox e).isEmpty = false → k ∈ candKeysOf shiftV T e →
      shapeIntersects geo t.extents = true → j ∈ t.shapes) := by
  constructor
  · intro j hj
    obtain ⟨t0, ht0, hext, l, hsh, _, hprop⟩ :=
      importAux_spec shiftV T elems 0 tm0 g hrun k t hk
    rw [hempty k t0 ht0] at hsh
    simp only [List.nil_append] at hsh
    obtain ⟨_, e, geo, hel, hgeo, hint⟩ := hprop j (hsh ▸ hj)
    refine ⟨e, geo, ?_, hgeo, ?_⟩
    · simpa using hel
    · rw [hext]
      exact hint
  · intro j e geo hel hgeo hne hcand hint
    have := importAux_complete shiftV T elems 0 tm0 g hrun j e geo hel hgeo
      hne k hcand t hk hint
    simpa using this

/-- C1 (witness): the amended theorem applied to the `exElems` run, tile
(1,0) and primitive 1, whose candidate range is exactly [(1,0)]. -/
theorem C1_amended_binning_witness :
    (importCellShapes ⟨0, 0⟩ 100 (buildTilemap ⟨0, 0⟩ 2 2 100) exElems).bind
      (fun g => g (1, 0)) = some ⟨mkGeoRect ⟨100, 0⟩ ⟨200, 100⟩, [0, 1]⟩ ∧
    (1 : Nat) ∈ ([0, 1] : List Nat) := by
  have hb : (importCellShapes ⟨0, 0⟩ 100 (buildTilemap ⟨0, 0⟩ 2 2 100)
      exElems).bind (fun g => g (1, 0)) =
      some ⟨mkGeoRect ⟨100, 0⟩ ⟨200, 100⟩, [0, 1]⟩ := by rfl
  refine ⟨hb, ?_⟩
  cases hrun : importCellShapes ⟨0, 0⟩ 100 (buildTilemap ⟨0, 0⟩ 2 2 100)
      exElems with
  | none =>
      rw [hrun] at hb
      exact Option.noConfusion hb
  | some g =>
      rw [hrun] at hb
      have hb2 : g (1, 0) = some ⟨mkGeoRect ⟨100, 0⟩ ⟨200, 100⟩, [0, 1]⟩ := hb
      have h := (C1_amended_binning ⟨0, 0⟩ 100 (buildTilemap ⟨0, 0⟩ 2 2 100)
        exElems g hrun
        (fun k t ht => buildTilemap_shapes_empty ⟨0, 0⟩ 2 2 100 k t ht)
        (1, 0) ⟨mkGeoRect ⟨100, 0⟩ ⟨200, 100⟩, [0, 1]⟩ hb2).2
      exact h 1 (RawShape.rect ⟨100, 0⟩ ⟨150, 50⟩)
        (GeoShapeEnum.rect (mkGeoRect ⟨100, 0⟩ ⟨150, 50⟩))
        rfl rfl rfl (by decide) (by decide)

/-! ### Claim C4: tile allocation and extents -/

/-- C4 (counterexample): with an aggregate box whose minimum corner
(5,0) is positive in x, the builder allocates tile (0,0) with world
extents (5,0)–(105,100); the shift computed for this box is zero, so the
tile's extents in the shifted coordinate space still start at x = 5 and
are not `[0·T, 1·T) × [0·T, 1·T)` as the claim states. -/
theorem C4_counterexample :
    buildTilemap ⟨5, 0⟩ 1 1 100 (0, 0) =
      some ⟨⟨⟨5, 0⟩, ⟨105, 100⟩⟩, []⟩ ∧
    tilemapShift ⟨5, 0⟩ = ⟨0, 0⟩ ∧
    (⟨⟨5 + 0, 0 + 0⟩, ⟨105 + 0, 100 + 0⟩⟩ : GeoRect) ≠
      (⟨⟨0, 0⟩, ⟨100, 100⟩⟩ : GeoRect) := by
  refine ⟨rfl, rfl, by decide⟩

/-- C4 (amended): the builder allocates exactly the tiles of
`[0, numX) × [0, numY)`, each with empty shape list and world extents
`[p0.x + ix·T, p0.x + (ix+1)·T) × [p0.y + iy·T, p0.y + (iy+1)·T)` where
`p0` is the aggregate box's minimum corner.  Those extents equal
`[ix·T, (ix+1)·T) × [iy·T, (iy+1)·T)` in the shifted coordinate space
exactly when the shift cancels `p0`, i.e. when both coordinates of `p0`
are non-positive; a positive minimum corner gets zero shift and the
claimed form fails (`C4_counterexample`). -/
theorem C4_amended_grid (p0 : Pt) (numX numY T : Nat) (k : Nat × Nat) :
    ((buildTilemap p0 numX numY T k).isSome ↔ (k.1 < numX ∧ k.2 < numY)) ∧
    (∀ t, buildTilemap p0 numX numY T k = some t →
      t.extents = mkGeoRect ⟨p0.x + k.1 * T, p0.y + k.2 * T⟩
        ⟨p0.x + (k.1 + 1) * T, p0.y + (k.2 + 1) * T⟩ ∧
      t.shapes = [] ∧
      (p0.x ≤ 0 → p0.y ≤ 0 →
        (⟨⟨t.extents.min.x + (tilemapShift p0).x,
           t.extents.min.y + (tilemapShift p0).y⟩,
          ⟨t.extents.max.x + (tilemapShift p0).x,
           t.extents.max.y + (tilemapShift p0).y⟩⟩ : GeoRect) =
        mkGeoRect ⟨k.1 * T, k.2 * T⟩ ⟨(k.1 + 1) * T, (k.2 + 1) * T⟩)) := by
  constructor
  · rw [buildTilemap_lookup]
    split_ifs with hc
    · simp [hc]
    · simp [hc]
  · intro t ht
    rw [buildTilemap_lookup] at ht
    split_ifs at ht with hc
    · have ht2 := Option.some.inj ht
      subst ht2
      refine ⟨rfl, rfl, ?_⟩
      intro hx hy
      have hsx : (tilemapShift p0).x = -p0.x := by
        unfold tilemapShift
        rcases lt_or_eq_of_le hx with h | h
        · simp [h]
        · simp [h]
      have hsy : (tilemapShift p0).y = -p0.y := by
        unfold tilemapShift
        rcases lt_or_eq_of_le hy with h | h
        · simp [h]
        · simp [h]
      have hT : (0 : Int) ≤ (T : Int) := Int.ofNat_nonneg T
      have hxx : (k.1 : Int) * T ≤ ((k.1 : Int) + 1) * T := by nlinarith
      have hyy : (k.2 : Int) * T ≤ ((k.2 : Int) + 1) * T := by nlinarith
      have ex1 : Min.min (p0.x + (k.1 : Int) * T) (p0.x + ((k.1 : Int) + 1) * T)
          = p0.x + (k.1 : Int) * T := min_eq_left (by linarith)
      have ex2 : Max.max (p0.x + (k.1 : Int) * T) (p0.x + ((k.1 : Int) + 1) * T)
          = p0.x + ((k.1 : Int) + 1) * T := max_eq_right (by linarith)
      have ey1 : Min.min (p0.y + (k.2 : Int) * T) (p0.y + ((k.2 : Int) + 1) * T)
          = p0.y + (k.2 : Int) * T := min_eq_left (by linarith)
      have ey2 : Max.max (p0.y + (k.2 : Int) * T) (p0.y + ((k.2 : Int) + 1) * T)
          = p0.y + ((k.2 : Int) + 1) * T := max_eq_right (by linarith)
      have er1 : Min.min ((k.1 : Int) * T) (((k.1 : Int) + 1) * T)
          = (k.1 : Int) * T := min_eq_left hxx
      have er2 : Max.max ((k.1 : Int) * T) (((k.1 : Int) + 1) * T)
          = ((k.1 : Int) + 1) * T := max_eq_right hxx
      have er3 : Min.min ((k.2 : Int) * T) (((k.2 : Int) + 1) * T)
          = (k.2 : Int) * T := min_eq_left hyy
      have er4 : Max.max ((k.2 : Int) * T) (((k.2 : Int) + 1) * T)
          = ((k.2 : Int) + 1) * T := max_eq_right hyy
      unfold mkGeoRect
      simp only [GeoRect.mk.injEq, Pt.mk.injEq, ex1, ex2, ey1, ey2, er1, er2,
        er3, er4, hsx, hsy]
      refine ⟨⟨by ring, by ring⟩, by ring, by ring⟩

/-- C4 (witness): the amended theorem applied at p0 = (-50, 0) (both
coordinates non-positive), a 2×2 grid with T = 100 and tile (1,0). -/
theorem C4_amended_grid_witness :
    (buildTilemap ⟨-50, 0⟩ 2 2 100 (1, 0)).isSome = true ∧
    (⟨⟨(⟨⟨50, 0⟩, ⟨150, 100⟩⟩ : GeoRect).min.x + (tilemapShift ⟨-50, 0⟩).x,
       (⟨⟨50, 0⟩, ⟨150, 100⟩⟩ : GeoRect).min.y + (tilemapShift ⟨-50, 0⟩).y⟩,
      ⟨(⟨⟨50, 0⟩, ⟨150, 100⟩⟩ : GeoRect).max.x + (tilemapShift ⟨-50, 0⟩).x,
       (⟨⟨50, 0⟩, ⟨150, 100⟩⟩ : GeoRect).max.y + (tilemapShift ⟨-50, 0⟩).y⟩⟩ :
      GeoRect) = mkGeoRect ⟨1 * 100, 0 * 100⟩ ⟨(1 + 1) * 100, (0 + 1) * 100⟩ := by
  have h := C4_amended_grid ⟨-50, 0⟩ 2 2 100 (1, 0)
  constructor
  · exact h.1.mpr ⟨by omega, by omega⟩
  · exact (h.2 ⟨⟨⟨50, 0⟩, ⟨150, 100⟩⟩, []⟩ (by rfl)).2.2 (by decide)
      (by decide)

/-! ### Claim C7: at most one occurrence of an index per tile -/

/-- C7: after a successful binning run over an initially empty grid,
every tile's shape list contains each primitive index at most once. -/
theorem C7_index_once (shiftV : Pt) (T : Nat) (tm0 : TileMapF)
    (elems : List RawShape) (g : TileMapF)
    (hrun : importCellShapes shiftV T tm0 elems = some g)
    (hempty : ∀ k t, tm0 k = some t → t.shapes = []) :
    ∀ k t, g k = some t → ∀ j, t.shapes.count j ≤ 1 := by
  intro k t hk j
  obtain ⟨t0, ht0, _, l, hsh, hpair, _⟩ :=
    importAux_spec shiftV T elems 0 tm0 g hrun k t hk
  rw [hempty k t0 ht0] at hsh
  simp only [List.nil_append] at hsh
  rw [hsh]
  have hnd : l.Nodup := List.Pairwise.imp (fun h => ne_of_lt h) hpair
  exact List.nodup_iff_count_le_one.mp hnd j

/-- C7 (witness): applied to the `exElems` run at tile (1,0), whose
shape list is [0, 1]. -/
theorem C7_index_once_witness :
    ([0, 1] : List Nat).count 1 ≤ 1 := by
  cases hrun : importCellShapes ⟨0, 0⟩ 100 (buildTilemap ⟨0, 0⟩ 2 2 100)
      exElems with
  | none =>
      have hsome : (importCellShapes ⟨0, 0⟩ 100 (buildTilemap ⟨0, 0⟩ 2 2 100)
          exElems).isSome = true := by rfl
      rw [hrun] at hsome
      exact Bool.noConfusion hsome
  | some g =>
      have hg : g (1, 0) = some ⟨mkGeoRect ⟨100, 0⟩ ⟨200, 100⟩, [0, 1]⟩ := by
        have hb : (importCellShapes ⟨0, 0⟩ 100 (buildTilemap ⟨0, 0⟩ 2 2 100)
            exElems).bind (fun g => g (1, 0)) =
            some ⟨mkGeoRect ⟨100, 0⟩ ⟨200, 100⟩, [0, 1]⟩ := by rfl
        rw [hrun] at hb
        exact hb
      exact C7_index_once ⟨0, 0⟩ 100 (buildTilemap ⟨0, 0⟩ 2 2 100) exElems g
        hrun (fun k t ht => buildTilemap_shapes_empty ⟨0, 0⟩ 2 2 100 k t ht)
        (1, 0) ⟨mkGeoRect ⟨100, 0⟩ ⟨200, 100⟩, [0, 1]⟩ hg 1

end TiledRender

